import Mathlib

/-!
Shallow embedding of the SPSC ring buffer, the binary semaphore and the
complex value type of the rtl-sdr-fm repository
(src/ringbuffer_base.hpp, src/oringbuffer.hpp, src/iringbuffer.hpp,
src/binary_semaphore.hpp, src/complex.hpp), together with proofs of the
specified properties.  Operations are modelled sequentially: each call runs
to completion before the next starts (the SPSC discipline with one thread
per face, interleaved at call granularity).  A blocking call that parks with
no pending semaphore post can never complete in a sequential trace; such a
call is modelled by the result `none`.
-/

namespace ymn

/-- Status codes (src/ringbuffer_base.hpp, enum ringbuffer_status). -/
inductive ringbuffer_status
  | OK
  | INTERNAL_ERROR
  | WOULD_BLOCK
  | OPERATION_CANCELLED
deriving DecidableEq

/-- Numeric values of the status codes: OK = 0, INTERNAL_ERROR = -1,
WOULD_BLOCK = -2, OPERATION_CANCELLED = -3. -/
def ringbuffer_status.code : ringbuffer_status → Int
  | .OK => 0
  | .INTERNAL_ERROR => -1
  | .WOULD_BLOCK => -2
  | .OPERATION_CANCELLED => -3

/-- Roles (src/ringbuffer_base.hpp, enum ringbuffer_role). -/
inductive ringbuffer_role
  | NONE
  | PRODUCER
  | CONSUMER
deriving DecidableEq

/-- State of a ring buffer (src/ringbuffer_base.hpp, class ringbuffer_base).
The `m_flags` bitset is modelled by its two bits (bit 0 = nonblocking write,
bit 1 = nonblocking read).  The two binary semaphores are modelled by their
`m_ready` flags (src/binary_semaphore.hpp); `m_writing_semaphore` is
constructed ready, `m_reading_semaphore` not ready.  The counters are
`std::size_t`; they start at 0 and are modelled as `Nat` (they only ever
grow by bounded increments, so no wrap-around arises). -/
structure ringbuffer (T : Type) where
  capacity : Nat
  nonblocking_write : Bool
  nonblocking_read : Bool
  produced : Nat
  consumed : Nat
  dropped : Nat
  storage : List T
  writing_semaphore : Bool
  reading_semaphore : Bool
  is_writing_cancelled : Bool
  is_reading_cancelled : Bool
deriving DecidableEq

/-- A freshly constructed ring buffer (ringbuffer_base constructor):
counters zero, storage of `capacity` default-constructed slots,
writing semaphore ready, reading semaphore not ready, no cancellation. -/
def mk_ringbuffer (T : Type) [Inhabited T] (capacity : Nat)
    (nonblocking_write nonblocking_read : Bool) : ringbuffer T :=
  { capacity := capacity
    nonblocking_write := nonblocking_write
    nonblocking_read := nonblocking_read
    produced := 0
    consumed := 0
    dropped := 0
    storage := List.replicate capacity default
    writing_semaphore := true
    reading_semaphore := false
    is_writing_cancelled := false
    is_reading_cancelled := false }

/-- `ringbuffer_base::get_counters` (src/ringbuffer_base.hpp lines 177-195).
Loads the counters, validates `produced ≥ consumed` and
`produced - consumed ≤ capacity`, and returns OK with the triple
`(produced, consumed, dropped)`; on an invariant violation it returns
INTERNAL_ERROR and stores nothing through the out-pointers (modelled by
returning zeros that callers must not use, exactly as the C++ callers do
not use the out-variables on error). -/
def get_counters (rb : ringbuffer T) : ringbuffer_status × Nat × Nat × Nat :=
  let l_produced := rb.produced
  let l_consumed := rb.consumed
  if l_produced < l_consumed then (.INTERNAL_ERROR, 0, 0, 0)
  else if rb.capacity < l_produced - l_consumed then (.INTERNAL_ERROR, 0, 0, 0)
  else (.OK, l_produced, l_consumed, rb.dropped)

/-- `ringbuffer_base::reset` (src/ringbuffer_base.hpp lines 197-212). -/
def reset (rb : ringbuffer T) (role : ringbuffer_role) : ringbuffer T :=
  match role with
  | .PRODUCER => { rb with produced := rb.consumed, dropped := 0 }
  | .CONSUMER => { rb with consumed := rb.produced }
  | .NONE => { rb with produced := 0, consumed := 0, dropped := 0 }

/-- `ringbuffer_base::cancel` (src/ringbuffer_base.hpp lines 214-232).
For PRODUCER, only when the write direction is blocking, it sets
`m_is_writing_cancelled` and posts the writing semaphore (post sets the
ready flag); symmetrically for CONSUMER; otherwise it does nothing. -/
def cancel (rb : ringbuffer T) (role : ringbuffer_role) : ringbuffer T :=
  match role with
  | .PRODUCER =>
      if !rb.nonblocking_write then
        { rb with is_writing_cancelled := true, writing_semaphore := true }
      else rb
  | .CONSUMER =>
      if !rb.nonblocking_read then
        { rb with is_reading_cancelled := true, reading_semaphore := true }
      else rb
  | .NONE => rb

/-- `ringbuffer_base::copy` applied to a contiguous destination region:
writes the elements of `src` into `dst` at consecutive positions starting
at `idx` (src/ringbuffer_base.hpp lines 261-268; always returns true). -/
def store_seq (dst : List T) (idx : Nat) (src : List T) : List T :=
  match src with
  | [] => dst
  | x :: xs => store_seq (dst.set idx x) (idx + 1) xs

/-- `ringbuffer_base::copy` applied from a contiguous source region:
the `k` elements of `src` starting at position `idx`
(src/iringbuffer.hpp read path, transfer out of storage). -/
def load_seq (src : List T) (idx k : Nat) : List T :=
  (src.drop idx).take k

/-- The transfer part of `oringbuffer::write` (src/oringbuffer.hpp lines
145-170), after the clamp: `data` is the (already clamped) list of elements
to transfer, `produced` the snapshotted producer counter.  Computes
`write_idx = produced mod capacity`, splits the transfer at the end of the
storage array when it would run past it, stores the elements, advances
`produced` by the transferred count, posts the reading semaphore when the
read direction is blocking, and returns the transferred count. -/
def write_transfer (rb : ringbuffer T) (data : List T) (produced : Nat) :
    Int × ringbuffer T :=
  let count := data.length
  let write_idx := produced % rb.capacity
  let split := if rb.capacity < write_idx + count then rb.capacity - write_idx else 0
  let storage1 := if 0 < split then store_seq rb.storage write_idx (data.take split) else rb.storage
  let write_idx2 := if 0 < split then 0 else write_idx
  let storage2 := store_seq storage1 write_idx2 (data.drop split)
  ((count : Int),
   { rb with
     storage := storage2
     produced := produced + count
     reading_semaphore := if !rb.nonblocking_read then true else rb.reading_semaphore })

/-- `oringbuffer::write(data, count, copy)` (src/oringbuffer.hpp lines
104-171) for the by-array variant, on the sequential model.  Returns
`some (result, new state)`; `none` models the blocking path parking on a
semaphore that is not ready (the call cannot complete within a sequential
trace; after a semaphore wake with no cancellation the loop re-reads the
unchanged counters, finds the buffer still full and parks on the
now-consumed semaphore). -/
def write (rb : ringbuffer T) (data : List T) : Option (Int × ringbuffer T) :=
  let count := data.length
  if count = 0 then some (0, rb)
  else if rb.nonblocking_write then
    let gc := get_counters rb
    if gc.1 ≠ ringbuffer_status.OK then some (gc.1.code, rb)
    else
      let produced := gc.2.1
      let consumed := gc.2.2.1
      let free_elements := rb.capacity - (produced - consumed)
      if free_elements = 0 then
        some (ringbuffer_status.WOULD_BLOCK.code, { rb with dropped := rb.dropped + 1 })
      else
        some (write_transfer rb (data.take (min count free_elements)) produced)
  else
    let gc := get_counters rb
    if gc.1 ≠ ringbuffer_status.OK then some (gc.1.code, rb)
    else
      let produced := gc.2.1
      let consumed := gc.2.2.1
      let free_elements := rb.capacity - (produced - consumed)
      if 0 < free_elements then
        some (write_transfer rb (data.take (min count free_elements)) produced)
      else if rb.writing_semaphore then
        if rb.is_writing_cancelled then
          some (ringbuffer_status.OPERATION_CANCELLED.code,
                { rb with writing_semaphore := false, is_writing_cancelled := false })
        else none
      else none

/-- The transfer part of `iringbuffer::read` (src/iringbuffer.hpp lines
144-169), after the clamp: reads `k` elements starting at
`read_idx = consumed mod capacity`, splitting at the end of the storage
array, advances `consumed` by `k`, posts the writing semaphore when the
write direction is blocking, and returns the count together with the list
of elements delivered to the caller's destination. -/
def read_transfer (rb : ringbuffer T) (consumed k : Nat) :
    Int × List T × ringbuffer T :=
  let read_idx := consumed % rb.capacity
  let split := if rb.capacity < read_idx + k then rb.capacity - read_idx else 0
  let out1 := if 0 < split then load_seq rb.storage read_idx split else []
  let read_idx2 := if 0 < split then 0 else read_idx
  let out2 := load_seq rb.storage read_idx2 (k - split)
  ((k : Int), out1 ++ out2,
   { rb with
     consumed := consumed + k
     writing_semaphore := if !rb.nonblocking_write then true else rb.writing_semaphore })

/-- `iringbuffer::read(data, count, copy)` (src/iringbuffer.hpp lines
104-170) for the by-array variant, on the sequential model.  The delivered
elements are returned as a list; `none` models parking on a semaphore that
is not ready (see `write`). -/
def read (rb : ringbuffer T) (count : Nat) : Option (Int × List T × ringbuffer T) :=
  if count = 0 then some (0, [], rb)
  else if rb.nonblocking_read then
    let gc := get_counters rb
    if gc.1 ≠ ringbuffer_status.OK then some (gc.1.code, [], rb)
    else
      let produced := gc.2.1
      let consumed := gc.2.2.1
      let available_elements := produced - consumed
      if available_elements = 0 then
        some (ringbuffer_status.WOULD_BLOCK.code, [], rb)
      else
        some (read_transfer rb consumed (min count available_elements))
  else
    let gc := get_counters rb
    if gc.1 ≠ ringbuffer_status.OK then some (gc.1.code, [], rb)
    else
      let produced := gc.2.1
      let consumed := gc.2.2.1
      let available_elements := produced - consumed
      if 0 < available_elements then
        some (read_transfer rb consumed (min count available_elements))
      else if rb.reading_semaphore then
        if rb.is_reading_cancelled then
          some (ringbuffer_status.OPERATION_CANCELLED.code, [],
                { rb with reading_semaphore := false, is_reading_cancelled := false })
        else none
      else none

/-- `oringbuffer::xfer_producer` (src/oringbuffer.hpp lines 91-101) on a
contiguous region: invokes the caller-supplied filler on `k` consecutive
slots starting at `idx`.  The (possibly stateful) callback is abstracted by
the sequence of its per-invocation results: invocation number `j` either
fills its slot with `cb j = some x` and returns true, or returns false
(`cb j = none`), which aborts the transfer.  Returns the updated storage and
the final status.  (The `ringbuffer_functor` position operator `+=` is a
no-op, so invocations are simply numbered consecutively.) -/
def xfer_producer (storage : List T) (idx : Nat) (cb : Nat → Option T)
    (j k : Nat) : List T × Bool :=
  match k with
  | 0 => (storage, true)
  | k' + 1 =>
      match cb j with
      | some x => xfer_producer (storage.set idx x) (idx + 1) cb (j + 1) k'
      | none => (storage, false)

/-- `oringbuffer::write(producer, count)` (src/oringbuffer.hpp lines 85-88
and 104-171): the callback-driven write.  The availability logic is the
same as `write`; the transfer uses `xfer_producer` on each of the (at most
two) contiguous regions and returns INTERNAL_ERROR without advancing
`produced` when the callback returns false mid-transfer. -/
def write_via_go (rb : ringbuffer T) (cb : Nat → Option T)
    (count produced : Nat) : Int × ringbuffer T :=
  let free_elements := rb.capacity - (produced - rb.consumed)
  let k := min count free_elements
  let write_idx := produced % rb.capacity
  let split := if rb.capacity < write_idx + k then rb.capacity - write_idx else 0
  let step1 := if 0 < split then xfer_producer rb.storage write_idx cb 0 split
               else (rb.storage, true)
  if step1.2 = false then
    (ringbuffer_status.INTERNAL_ERROR.code, { rb with storage := step1.1 })
  else
    let write_idx2 := if 0 < split then 0 else write_idx
    let step2 := xfer_producer step1.1 write_idx2 cb split (k - split)
    if step2.2 = false then
      (ringbuffer_status.INTERNAL_ERROR.code, { rb with storage := step2.1 })
    else
      ((k : Int),
       { rb with
         storage := step2.1
         produced := produced + k
         reading_semaphore :=
           if !rb.nonblocking_read then true else rb.reading_semaphore })

/-- `oringbuffer::write(producer, count)` (src/oringbuffer.hpp lines 85-88
and 104-171): the callback-driven write.  The availability logic is the
same as `write`; the transfer (`write_via_go`) uses `xfer_producer` on each
of the (at most two) contiguous regions and returns INTERNAL_ERROR without
advancing `produced` when the callback returns false mid-transfer. -/
def write_via (rb : ringbuffer T) (cb : Nat → Option T) (count : Nat) :
    Option (Int × ringbuffer T) :=
  if count = 0 then some (0, rb)
  else if rb.nonblocking_write then
    let gc := get_counters rb
    if gc.1 ≠ ringbuffer_status.OK then some (gc.1.code, rb)
    else if rb.capacity - (gc.2.1 - gc.2.2.1) = 0 then
      some (ringbuffer_status.WOULD_BLOCK.code, { rb with dropped := rb.dropped + 1 })
    else some (write_via_go rb cb count gc.2.1)
  else
    let gc := get_counters rb
    if gc.1 ≠ ringbuffer_status.OK then some (gc.1.code, rb)
    else if 0 < rb.capacity - (gc.2.1 - gc.2.2.1) then
      some (write_via_go rb cb count gc.2.1)
    else if rb.writing_semaphore then
      if rb.is_writing_cancelled then
        some (ringbuffer_status.OPERATION_CANCELLED.code,
              { rb with writing_semaphore := false, is_writing_cancelled := false })
      else none
    else none

/-- `iringbuffer::xfer_consumer` (src/iringbuffer.hpp lines 91-101) on a
contiguous region: invokes the caller-supplied drainer on `k` consecutive
slots; the stateful callback is abstracted by its per-invocation results
`cb j : Bool` (invocation number `j` accepts its element or aborts). -/
def xfer_consumer (cb : Nat → Bool) (j k : Nat) : Bool :=
  match k with
  | 0 => true
  | k' + 1 => if cb j then xfer_consumer cb (j + 1) k' else false

/-- `iringbuffer::read(consumer, count)` (src/iringbuffer.hpp lines 85-88
and 104-170): the callback-driven read.  Availability logic as in `read`;
returns INTERNAL_ERROR without advancing `consumed` when the callback
returns false mid-transfer (storage is never modified by a read). -/
def read_via_go (rb : ringbuffer T) (cb : Nat → Bool)
    (count consumed : Nat) : Int × ringbuffer T :=
  let available_elements := rb.produced - consumed
  let k := min count available_elements
  let read_idx := consumed % rb.capacity
  let split := if rb.capacity < read_idx + k then rb.capacity - read_idx else 0
  let ok1 := if 0 < split then xfer_consumer cb 0 split else true
  if ok1 = false then (ringbuffer_status.INTERNAL_ERROR.code, rb)
  else if xfer_consumer cb split (k - split) = false then
    (ringbuffer_status.INTERNAL_ERROR.code, rb)
  else
    ((k : Int),
     { rb with
       consumed := consumed + k
       writing_semaphore :=
         if !rb.nonblocking_write then true else rb.writing_semaphore })

/-- `iringbuffer::read(consumer, count)` (src/iringbuffer.hpp lines 85-88
and 104-170): the callback-driven read.  Availability logic as in `read`;
the transfer (`read_via_go`) returns INTERNAL_ERROR without advancing
`consumed` when the callback returns false mid-transfer (storage is never
modified by a read). -/
def read_via (rb : ringbuffer T) (cb : Nat → Bool) (count : Nat) :
    Option (Int × ringbuffer T) :=
  if count = 0 then some (0, rb)
  else if rb.nonblocking_read then
    let gc := get_counters rb
    if gc.1 ≠ ringbuffer_status.OK then some (gc.1.code, rb)
    else if gc.2.1 - gc.2.2.1 = 0 then
      some (ringbuffer_status.WOULD_BLOCK.code, rb)
    else some (read_via_go rb cb count gc.2.2.1)
  else
    let gc := get_counters rb
    if gc.1 ≠ ringbuffer_status.OK then some (gc.1.code, rb)
    else if 0 < gc.2.1 - gc.2.2.1 then some (read_via_go rb cb count gc.2.2.1)
    else if rb.reading_semaphore then
      if rb.is_reading_cancelled then
        some (ringbuffer_status.OPERATION_CANCELLED.code,
              { rb with reading_semaphore := false, is_reading_cancelled := false })
      else none
    else none

/-- One producer-face or consumer-face call in a sequential SPSC trace. -/
inductive rb_op (T : Type)
  | wr (data : List T)
  | rd (count : Nat)

/-- Runs a sequence of interleaved write and read calls on the sequential
model, collecting the concatenation of the elements actually transferred by
the writes (the clamped prefix of each request, nothing on an error return)
and the concatenation of the elements delivered by the reads.  A call that
parks (result `none`) ends the trace. -/
def run_ops (rb : ringbuffer T) : List (rb_op T) → ringbuffer T × List T × List T
  | [] => (rb, [], [])
  | .wr data :: rest =>
      match write rb data with
      | some (r, rb') =>
          let w := if 0 ≤ r then data.take r.toNat else []
          let res := run_ops rb' rest
          (res.1, w ++ res.2.1, res.2.2)
      | none => (rb, [], [])
  | .rd n :: rest =>
      match read rb n with
      | some (_, out, rb') =>
          let res := run_ops rb' rest
          (res.1, res.2.1, out ++ res.2.2)
      | none => (rb, [], [])

/-- A `post` or completed `wait` event on a binary semaphore
(src/binary_semaphore.hpp). -/
inductive sem_op
  | post
  | wait
deriving DecidableEq

/-- Number of post events in a trace. -/
def count_posts : List sem_op → Nat
  | [] => 0
  | .post :: rest => count_posts rest + 1
  | .wait :: rest => count_posts rest

/-- Number of wait events in a trace. -/
def count_waits : List sem_op → Nat
  | [] => 0
  | .post :: rest => count_waits rest
  | .wait :: rest => count_waits rest + 1

/-- Runs a trace of semaphore operations on the `m_ready` flag
(src/binary_semaphore.hpp lines 81-110): `post` sets the flag (idempotently),
`wait` observes a set flag, clears it and returns successfully.  A `wait`
that finds the flag clear parks; since under the delivery discipline of the
claim no post is delivered after the corresponding wait starts, a parked
wait is never woken, and the trace cannot complete: result `none`.
On completion, returns the final flag and the number of successful waits. -/
def run_sem (r : Bool) : List sem_op → Option (Bool × Nat)
  | [] => some (r, 0)
  | .post :: rest => run_sem true rest
  | .wait :: rest =>
      if r then (run_sem false rest).map (fun p => (p.1, p.2 + 1)) else none

/-- The number of waits that return successfully in a trace in which a
parked wait is never woken (faithful to src/binary_semaphore.hpp whenever
no post event follows a parked wait, in particular under the claim's
delivery discipline): `wait` on a set flag clears it and succeeds; `wait`
on a clear flag parks and the thread contributes no further transition. -/
def sem_successes (r : Bool) : List sem_op → Nat
  | [] => 0
  | .post :: rest => sem_successes true rest
  | .wait :: rest =>
      if r then sem_successes false rest + 1 else sem_successes r rest

/-- Formalisation of "every post is delivered before the corresponding wait
starts": in every prefix of the trace, the i-th post precedes the i-th
wait, i.e. each prefix contains at least as many posts as waits. -/
def delivered (ops : List sem_op) : Prop :=
  ∀ n ≤ ops.length, count_waits (ops.take n) ≤ count_posts (ops.take n)

instance (ops : List sem_op) : Decidable (delivered ops) :=
  decidable_of_iff
    (∀ n, 0 ≤ n → n ≤ ops.length →
      count_waits (ops.take n) ≤ count_posts (ops.take n))
    ⟨fun h n hn => h n (Nat.zero_le n) hn, fun h n _ hn => h n hn⟩

/-- Complex numbers over the exact component type `Int`
(src/complex.hpp, template complex with an exact T). -/
structure cpx where
  re : Int
  im : Int
deriving DecidableEq

/-- `complex::operator*=` (src/complex.hpp lines 151-156), transcribed
statement by statement: the member `m_re` is assigned first, and the
assignment to `m_im` then reads the already-updated `m_re`. -/
def cpx_mul_assign (a b : cpx) : cpx :=
  let re1 := a.re * b.re - a.im * b.im
  let im1 := re1 * b.im + a.im * b.re
  { re := re1, im := im1 }

/-- The out-of-place `operator*(complex, complex)`
(src/complex.hpp lines 273-280). -/
def cpx_mul (a b : cpx) : cpx :=
  { re := a.re * b.re - a.im * b.im
    im := a.re * b.im + a.im * b.re }

/-! ### Arithmetic helpers for ring indices -/

theorem add_mod_base (p j n : Nat) : (p + j) % n = (p % n + j) % n := by
  conv_lhs => rw [← Nat.mod_add_div p n]
  rw [Nat.add_right_comm, Nat.add_mul_mod_self_left]

theorem mod_eq_of_base_lt {p j n : Nat} (h : p % n + j < n) :
    (p + j) % n = p % n + j := by
  rw [add_mod_base, Nat.mod_eq_of_lt h]

theorem mod_eq_of_base_ge {p j n : Nat} (h1 : n ≤ p % n + j) (h2 : p % n + j < 2 * n) :
    (p + j) % n = p % n + j - n := by
  rw [add_mod_base, Nat.mod_eq_sub_mod h1, Nat.mod_eq_of_lt (by omega)]

theorem mod_ne_of_window {a b n : Nat} (h1 : a < b) (h2 : b - a < n) :
    a % n ≠ b % n := by
  intro h
  have hd : n ∣ b - a := (Nat.modEq_iff_dvd' h1.le).mp h
  have := Nat.le_of_dvd (by omega) hd
  omega

/-! ### Characterisations of the contiguous transfer helpers -/

theorem store_seq_length (dst : List T) (idx : Nat) (src : List T) :
    (store_seq dst idx src).length = dst.length := by
  induction src generalizing dst idx with
  | nil => rfl
  | cons x xs ih => rw [store_seq, ih, List.length_set]

theorem store_seq_getElem (dst : List T) (idx : Nat) (src : List T)
    (hb : idx + src.length ≤ dst.length) (m : Nat) :
    (store_seq dst idx src)[m]? =
      if idx ≤ m ∧ m < idx + src.length then src[m - idx]? else dst[m]? := by
  induction src generalizing dst idx with
  | nil =>
      simp only [store_seq, List.length_nil, Nat.add_zero]
      rw [if_neg (by omega)]
  | cons x xs ih =>
      simp only [List.length_cons] at hb ⊢
      rw [store_seq, ih _ _ (by rw [List.length_set]; omega)]
      by_cases h1 : m = idx
      · subst h1
        rw [if_neg (by omega), if_pos (by omega)]
        rw [List.getElem?_set, if_pos rfl, if_pos (by omega), Nat.sub_self]
        simp
      · by_cases h2 : idx + 1 ≤ m ∧ m < idx + 1 + xs.length
        · rw [if_pos h2, if_pos (by omega)]
          have e : m - idx = (m - (idx + 1)) + 1 := by omega
          rw [e, List.getElem?_cons_succ]
        · rw [if_neg h2, if_neg (by omega)]
          rw [List.getElem?_set, if_neg (by omega)]

theorem load_seq_getElem (src : List T) (idx k m : Nat) :
    (load_seq src idx k)[m]? = if m < k then src[idx + m]? else none := by
  unfold load_seq
  rw [List.getElem?_take]
  by_cases h : m < k
  · rw [if_pos h, if_pos h, List.getElem?_drop]
  · rw [if_neg h, if_neg h]

theorem load_seq_length (src : List T) (idx k : Nat) :
    (load_seq src idx k).length = min k (src.length - idx) := by
  simp [load_seq]

theorem xfer_producer_length (st : List T) (idx : Nat) (cb : Nat → Option T)
    (j k : Nat) : (xfer_producer st idx cb j k).1.length = st.length := by
  induction k generalizing st idx j with
  | zero => rfl
  | succ k ih =>
      cases h : cb j with
      | some x => simp only [xfer_producer, h, ih, List.length_set]
      | none => simp only [xfer_producer, h]

theorem xfer_producer_ok_iff (st : List T) (idx : Nat) (cb : Nat → Option T)
    (j k : Nat) :
    (xfer_producer st idx cb j k).2 = true ↔ ∀ i < k, (cb (j + i)).isSome = true := by
  induction k generalizing st idx j with
  | zero => simp [xfer_producer]
  | succ k ih =>
      cases h : cb j with
      | some x =>
          simp only [xfer_producer, h]
          rw [ih]
          constructor
          · intro hall i hi
            match i with
            | 0 => simp [h]
            | i' + 1 =>
                have e : j + (i' + 1) = j + 1 + i' := by omega
                rw [e]
                exact hall i' (by omega)
          · intro hall i hi
            have e : j + 1 + i = j + (i + 1) := by omega
            rw [e]
            exact hall (i + 1) (by omega)
      | none =>
          constructor
          · intro hc
            rw [xfer_producer] at hc
            simp [h] at hc
          · intro hall
            have h0 := hall 0 (Nat.succ_pos k)
            rw [Nat.add_zero, h] at h0
            simp at h0

theorem xfer_consumer_ok_iff (cb : Nat → Bool) (j k : Nat) :
    xfer_consumer cb j k = true ↔ ∀ i < k, cb (j + i) = true := by
  induction k generalizing j with
  | zero => simp [xfer_consumer]
  | succ k ih =>
      cases h : cb j with
      | true =>
          simp only [xfer_consumer, h, if_true]
          rw [ih]
          constructor
          · intro hall i hi
            match i with
            | 0 => simpa using h
            | i' + 1 =>
                have e : j + (i' + 1) = j + 1 + i' := by omega
                rw [e]
                exact hall i' (by omega)
          · intro hall i hi
            have e : j + 1 + i = j + (i + 1) := by omega
            rw [e]
            exact hall (i + 1) (by omega)
      | false =>
          constructor
          · intro hc
            rw [xfer_consumer] at hc
            simp [h] at hc
          · intro hall
            have h0 := hall 0 (Nat.succ_pos k)
            rw [Nat.add_zero] at h0
            rw [h] at h0
            exact Bool.noConfusion h0

/-! ### Characterisation of the (possibly split) ring transfers -/

theorem write_transfer_result (rb : ringbuffer T) (dataK : List T) (p : Nat) :
    (write_transfer rb dataK p).1 = (dataK.length : Int) := rfl

theorem write_transfer_produced (rb : ringbuffer T) (dataK : List T) (p : Nat) :
    (write_transfer rb dataK p).2.produced = p + dataK.length := rfl

theorem write_transfer_consumed (rb : ringbuffer T) (dataK : List T) (p : Nat) :
    (write_transfer rb dataK p).2.consumed = rb.consumed := rfl

theorem write_transfer_dropped (rb : ringbuffer T) (dataK : List T) (p : Nat) :
    (write_transfer rb dataK p).2.dropped = rb.dropped := rfl

theorem write_transfer_capacity (rb : ringbuffer T) (dataK : List T) (p : Nat) :
    (write_transfer rb dataK p).2.capacity = rb.capacity := rfl

theorem write_transfer_flags (rb : ringbuffer T) (dataK : List T) (p : Nat) :
    (write_transfer rb dataK p).2.nonblocking_write = rb.nonblocking_write ∧
    (write_transfer rb dataK p).2.nonblocking_read = rb.nonblocking_read :=
  ⟨rfl, rfl⟩

theorem write_transfer_storage_length (rb : ringbuffer T) (dataK : List T)
    (p : Nat) :
    (write_transfer rb dataK p).2.storage.length = rb.storage.length := by
  simp only [write_transfer]
  by_cases hs : 0 < (if rb.capacity < p % rb.capacity + dataK.length then
      rb.capacity - p % rb.capacity else 0)
  · simp only [if_pos hs, store_seq_length]
  · simp only [if_neg hs, store_seq_length]

theorem write_transfer_slot_eq (rb : ringbuffer T) (dataK : List T) (p : Nat)
    (hlen : rb.storage.length = rb.capacity) (hcap : 0 < rb.capacity)
    (hk : dataK.length ≤ rb.capacity) (j : Nat) (hj : j < dataK.length) :
    (write_transfer rb dataK p).2.storage[(p + j) % rb.capacity]? = dataK[j]? := by
  have hw : p % rb.capacity < rb.capacity := Nat.mod_lt _ hcap
  simp only [write_transfer]
  by_cases hsplit : rb.capacity < p % rb.capacity + dataK.length
  · rw [if_pos hsplit]
    have hpos : 0 < rb.capacity - p % rb.capacity := by omega
    rw [if_pos hpos, if_pos hpos]
    by_cases hj2 : j < rb.capacity - p % rb.capacity
    · have hmod : (p + j) % rb.capacity = p % rb.capacity + j :=
        mod_eq_of_base_lt (by omega)
      rw [hmod]
      rw [store_seq_getElem _ _ _
        (by rw [store_seq_length, hlen, List.length_drop]; omega) _]
      rw [if_neg (by rw [List.length_drop]; omega)]
      rw [store_seq_getElem _ _ _
        (by rw [hlen, List.length_take]; omega) _]
      rw [if_pos ⟨by omega, by rw [List.length_take]; omega⟩]
      rw [List.getElem?_take, if_pos (by omega)]
      congr 1
      omega
    · have hmod : (p + j) % rb.capacity = j - (rb.capacity - p % rb.capacity) := by
        have h := mod_eq_of_base_ge (p := p) (j := j) (n := rb.capacity)
          (by omega) (by omega)
        rw [h]
        omega
      rw [hmod]
      rw [store_seq_getElem _ _ _
        (by rw [store_seq_length, hlen, List.length_drop]; omega) _]
      rw [if_pos ⟨Nat.zero_le _, by rw [List.length_drop]; omega⟩]
      rw [Nat.sub_zero, List.getElem?_drop]
      congr 1
      omega
  · rw [if_neg hsplit]
    rw [if_neg (by omega), if_neg (by omega), List.drop_zero]
    have hmod : (p + j) % rb.capacity = p % rb.capacity + j :=
      mod_eq_of_base_lt (by omega)
    rw [hmod]
    rw [store_seq_getElem _ _ _ (by rw [hlen]; omega) _]
    rw [if_pos ⟨by omega, by omega⟩]
    congr 1
    omega

theorem write_transfer_slot_out (rb : ringbuffer T) (dataK : List T) (p : Nat)
    (hlen : rb.storage.length = rb.capacity) (hcap : 0 < rb.capacity)
    (hk : dataK.length ≤ rb.capacity) (m : Nat) (hm : m < rb.capacity)
    (hout : ∀ j, j < dataK.length → (p + j) % rb.capacity ≠ m) :
    (write_transfer rb dataK p).2.storage[m]? = rb.storage[m]? := by
  have hw : p % rb.capacity < rb.capacity := Nat.mod_lt _ hcap
  simp only [write_transfer]
  by_cases hsplit : rb.capacity < p % rb.capacity + dataK.length
  · rw [if_pos hsplit]
    have hpos : 0 < rb.capacity - p % rb.capacity := by omega
    rw [if_pos hpos, if_pos hpos]
    have hA : ¬ p % rb.capacity ≤ m := by
      intro ha
      refine hout (m - p % rb.capacity) (by omega) ?_
      rw [mod_eq_of_base_lt (by omega)]
      omega
    have hB : ¬ m < dataK.length - (rb.capacity - p % rb.capacity) := by
      intro hb
      refine hout (m + (rb.capacity - p % rb.capacity)) (by omega) ?_
      rw [mod_eq_of_base_ge (by omega) (by omega)]
      omega
    rw [store_seq_getElem _ _ _
      (by rw [store_seq_length, hlen, List.length_drop]; omega) _]
    rw [if_neg (by rw [List.length_drop]; omega)]
    rw [store_seq_getElem _ _ _
      (by rw [hlen, List.length_take]; omega) _]
    rw [if_neg (by rw [List.length_take]; omega)]
  · rw [if_neg hsplit]
    rw [if_neg (by omega), if_neg (by omega), List.drop_zero]
    have hA : ¬ (p % rb.capacity ≤ m ∧ m < p % rb.capacity + dataK.length) := by
      intro ⟨ha, hb⟩
      refine hout (m - p % rb.capacity) (by omega) ?_
      rw [mod_eq_of_base_lt (by omega)]
      omega
    rw [store_seq_getElem _ _ _ (by rw [hlen]; omega) _]
    rw [if_neg hA]

theorem read_transfer_result (rb : ringbuffer T) (c k : Nat) :
    (read_transfer rb c k).1 = (k : Int) := rfl

theorem read_transfer_consumed (rb : ringbuffer T) (c k : Nat) :
    (read_transfer rb c k).2.2.consumed = c + k := rfl

theorem read_transfer_produced (rb : ringbuffer T) (c k : Nat) :
    (read_transfer rb c k).2.2.produced = rb.produced := rfl

theorem read_transfer_dropped (rb : ringbuffer T) (c k : Nat) :
    (read_transfer rb c k).2.2.dropped = rb.dropped := rfl

theorem read_transfer_storage (rb : ringbuffer T) (c k : Nat) :
    (read_transfer rb c k).2.2.storage = rb.storage := rfl

theorem read_transfer_capacity (rb : ringbuffer T) (c k : Nat) :
    (read_transfer rb c k).2.2.capacity = rb.capacity := rfl

theorem read_transfer_out_length (rb : ringbuffer T) (c k : Nat)
    (hlen : rb.storage.length = rb.capacity) (hcap : 0 < rb.capacity)
    (hk : k ≤ rb.capacity) :
    (read_transfer rb c k).2.1.length = k := by
  have hw : c % rb.capacity < rb.capacity := Nat.mod_lt _ hcap
  simp only [read_transfer]
  by_cases hsplit : rb.capacity < c % rb.capacity + k
  · rw [if_pos hsplit]
    have hpos : 0 < rb.capacity - c % rb.capacity := by omega
    rw [if_pos hpos, if_pos hpos]
    rw [List.length_append, load_seq_length, load_seq_length, hlen]
    omega
  · rw [if_neg hsplit]
    rw [if_neg (by omega), if_neg (by omega)]
    rw [List.length_append, load_seq_length, hlen, List.length_nil]
    omega

theorem read_transfer_out_getElem (rb : ringbuffer T) (c k : Nat)
    (hlen : rb.storage.length = rb.capacity) (hcap : 0 < rb.capacity)
    (hk : k ≤ rb.capacity) (j : Nat) (hj : j < k) :
    (read_transfer rb c k).2.1[j]? = rb.storage[(c + j) % rb.capacity]? := by
  have hw : c % rb.capacity < rb.capacity := Nat.mod_lt _ hcap
  simp only [read_transfer]
  by_cases hsplit : rb.capacity < c % rb.capacity + k
  · rw [if_pos hsplit]
    have hpos : 0 < rb.capacity - c % rb.capacity := by
      omega
    rw [if_pos hpos, if_pos hpos]
    rw [List.getElem?_append]
    by_cases hj2 : j < rb.capacity - c % rb.capacity
    · rw [if_pos (by rw [load_seq_length, hlen]; omega)]
      rw [load_seq_getElem, if_pos hj2]
      rw [mod_eq_of_base_lt (by omega)]
    · rw [if_neg (by rw [load_seq_length, hlen]; omega)]
      rw [load_seq_length, hlen]
      rw [load_seq_getElem]
      rw [if_pos (by omega)]
      rw [mod_eq_of_base_ge (by omega) (by omega)]
      congr 1
      omega
  · rw [if_neg hsplit]
    rw [if_neg (by omega), if_neg (by omega)]
    rw [List.nil_append, Nat.sub_zero, load_seq_getElem, if_pos hj]
    rw [mod_eq_of_base_lt (by omega)]

/-! ### Reduction of `write` and `read` under known availability -/

theorem get_counters_ok (rb : ringbuffer T) (h1 : rb.consumed ≤ rb.produced)
    (h2 : rb.produced - rb.consumed ≤ rb.capacity) :
    get_counters rb = (ringbuffer_status.OK, rb.produced, rb.consumed, rb.dropped) := by
  simp only [get_counters]
  rw [if_neg (by omega), if_neg (by omega)]

theorem get_counters_err (rb : ringbuffer T)
    (hbad : rb.produced < rb.consumed ∨ rb.capacity < rb.produced - rb.consumed) :
    get_counters rb = (ringbuffer_status.INTERNAL_ERROR, 0, 0, 0) := by
  simp only [get_counters]
  rcases hbad with h | h
  · rw [if_pos h]
  · rw [if_neg (by omega), if_pos h]

theorem write_eq_transfer (rb : ringbuffer T) (data : List T)
    (hne : data.length ≠ 0) (h1 : rb.consumed ≤ rb.produced)
    (h2 : rb.produced - rb.consumed ≤ rb.capacity)
    (hfree : 0 < rb.capacity - (rb.produced - rb.consumed)) :
    write rb data = some (write_transfer rb
      (data.take (min data.length (rb.capacity - (rb.produced - rb.consumed))))
      rb.produced) := by
  simp only [write]
  rw [get_counters_ok rb h1 h2, if_neg hne]
  cases hbw : rb.nonblocking_write
  · rw [if_neg Bool.false_ne_true, if_neg (by simp)]
    dsimp only
    rw [if_pos hfree]
  · rw [if_pos rfl, if_neg (by simp)]
    dsimp only
    rw [if_neg (by omega)]

theorem write_full_nonblocking (rb : ringbuffer T) (data : List T)
    (hne : data.length ≠ 0) (h1 : rb.consumed ≤ rb.produced)
    (h2 : rb.produced - rb.consumed ≤ rb.capacity)
    (hfull : rb.capacity - (rb.produced - rb.consumed) = 0)
    (hnb : rb.nonblocking_write = true) :
    write rb data = some (-2, { rb with dropped := rb.dropped + 1 }) := by
  simp only [write]
  rw [get_counters_ok rb h1 h2, if_neg hne, if_pos hnb, if_neg (by simp)]
  dsimp only
  rw [if_pos hfull]
  rfl

theorem write_err (rb : ringbuffer T) (data : List T)
    (hne : data.length ≠ 0)
    (hbad : rb.produced < rb.consumed ∨ rb.capacity < rb.produced - rb.consumed) :
    write rb data = some (-1, rb) := by
  simp only [write]
  rw [get_counters_err rb hbad, if_neg hne]
  cases hbw : rb.nonblocking_write
  · rw [if_neg Bool.false_ne_true, if_pos (by simp)]
    rfl
  · rw [if_pos rfl, if_pos (by simp)]
    rfl

theorem read_eq_transfer (rb : ringbuffer T) (n : Nat)
    (hn : n ≠ 0) (h1 : rb.consumed ≤ rb.produced)
    (h2 : rb.produced - rb.consumed ≤ rb.capacity)
    (havail : 0 < rb.produced - rb.consumed) :
    read rb n = some (read_transfer rb rb.consumed
      (min n (rb.produced - rb.consumed))) := by
  simp only [read]
  rw [get_counters_ok rb h1 h2, if_neg hn]
  cases hbr : rb.nonblocking_read
  · rw [if_neg Bool.false_ne_true, if_neg (by simp)]
    dsimp only
    rw [if_pos havail]
  · rw [if_pos rfl, if_neg (by simp)]
    dsimp only
    rw [if_neg (by omega)]

theorem read_empty_nonblocking (rb : ringbuffer T) (n : Nat)
    (hn : n ≠ 0) (h1 : rb.consumed ≤ rb.produced)
    (h2 : rb.produced - rb.consumed ≤ rb.capacity)
    (hempty : rb.produced - rb.consumed = 0)
    (hnb : rb.nonblocking_read = true) :
    read rb n = some (-2, [], rb) := by
  simp only [read]
  rw [get_counters_ok rb h1 h2, if_neg hn, if_pos hnb, if_neg (by simp)]
  dsimp only
  rw [if_pos hempty]
  rfl

theorem read_err (rb : ringbuffer T) (n : Nat)
    (hn : n ≠ 0)
    (hbad : rb.produced < rb.consumed ∨ rb.capacity < rb.produced - rb.consumed) :
    read rb n = some (-1, [], rb) := by
  simp only [read]
  rw [get_counters_err rb hbad, if_neg hn]
  cases hbr : rb.nonblocking_read
  · rw [if_neg Bool.false_ne_true, if_pos (by simp)]
    rfl
  · rw [if_pos rfl, if_pos (by simp)]
    rfl

theorem read_empty_blocking_cancelled (rb : ringbuffer T) (n : Nat)
    (hn : n ≠ 0) (h1 : rb.consumed ≤ rb.produced)
    (h2 : rb.produced - rb.consumed ≤ rb.capacity)
    (hempty : rb.produced - rb.consumed = 0)
    (hbl : rb.nonblocking_read = false)
    (hsem : rb.reading_semaphore = true)
    (hcanc : rb.is_reading_cancelled = true) :
    read rb n = some (-3, [],
      { rb with reading_semaphore := false, is_reading_cancelled := false }) := by
  simp only [read]
  rw [get_counters_ok rb h1 h2, if_neg hn, hbl,
      if_neg Bool.false_ne_true, if_neg (by simp)]
  dsimp only
  rw [if_neg (by omega), if_pos hsem, if_pos hcanc]
  rfl

theorem read_empty_blocking_parks (rb : ringbuffer T) (n : Nat)
    (hn : n ≠ 0) (h1 : rb.consumed ≤ rb.produced)
    (h2 : rb.produced - rb.consumed ≤ rb.capacity)
    (hempty : rb.produced - rb.consumed = 0)
    (hbl : rb.nonblocking_read = false)
    (hsem : rb.reading_semaphore = false) :
    read rb n = none := by
  simp only [read]
  rw [get_counters_ok rb h1 h2, if_neg hn, hbl,
      if_neg Bool.false_ne_true, if_neg (by simp)]
  dsimp only
  rw [if_neg (by omega), if_neg (by rw [hsem]; exact Bool.false_ne_true)]

theorem write_full_blocking (rb : ringbuffer T) (data : List T)
    (hne : data.length ≠ 0) (h1 : rb.consumed ≤ rb.produced)
    (h2 : rb.produced - rb.consumed ≤ rb.capacity)
    (hfull : rb.capacity - (rb.produced - rb.consumed) = 0)
    (hbw : rb.nonblocking_write = false) :
    write rb data =
      (if rb.writing_semaphore then
        (if rb.is_writing_cancelled then
          some (-3, { rb with writing_semaphore := false, is_writing_cancelled := false })
         else none)
       else none) := by
  simp only [write]
  rw [get_counters_ok rb h1 h2, if_neg hne, hbw,
      if_neg Bool.false_ne_true, if_neg (by simp)]
  dsimp only
  rw [if_neg (by omega)]
  rfl

/-! ### The FIFO invariant relating a ring buffer to the stream written so far -/

theorem read_empty_blocking_stuck (rb : ringbuffer T) (n : Nat)
    (hn : n ≠ 0) (h1 : rb.consumed ≤ rb.produced)
    (h2 : rb.produced - rb.consumed ≤ rb.capacity)
    (hempty : rb.produced - rb.consumed = 0)
    (hbl : rb.nonblocking_read = false)
    (hsem : rb.reading_semaphore = true)
    (hcanc : rb.is_reading_cancelled = false) :
    read rb n = none := by
  simp only [read]
  rw [get_counters_ok rb h1 h2, if_neg hn, hbl,
      if_neg Bool.false_ne_true, if_neg (by simp)]
  dsimp only
  rw [if_neg (by omega), if_pos hsem, if_neg (by rw [hcanc]; exact Bool.false_ne_true)]

/-- The invariant of a sequentially operated ring buffer relative to the
stream `W` of all elements transferred by writes since construction: the
counters are in range, `produced` counts the elements of `W`, and every
not-yet-consumed element `W[i]` sits in slot `i mod capacity` of storage. -/
def rb_inv (rb : ringbuffer T) (W : List T) : Prop :=
  0 < rb.capacity ∧
  rb.storage.length = rb.capacity ∧
  rb.consumed ≤ rb.produced ∧
  rb.produced - rb.consumed ≤ rb.capacity ∧
  rb.produced = W.length ∧
  ∀ i, rb.consumed ≤ i → i < rb.produced → rb.storage[i % rb.capacity]? = W[i]?

theorem rb_inv_write {rb : ringbuffer T} {W : List T} (hinv : rb_inv rb W)
    (data : List T) (r : Int) (rb' : ringbuffer T)
    (h : write rb data = some (r, rb')) :
    rb_inv rb' (W ++ (if 0 ≤ r then data.take r.toNat else [])) ∧
    rb'.consumed = rb.consumed := by
  obtain ⟨hcap, hlen, hcc, hfill, hplen, hslot⟩ := hinv
  by_cases hne : data.length = 0
  · simp only [write, if_pos hne] at h
    have h' := Option.some.inj h
    have hr : (0 : Int) = r := congrArg Prod.fst h'
    have hrb : rb = rb' := congrArg Prod.snd h'
    subst hr
    subst hrb
    refine ⟨?_, rfl⟩
    rw [if_pos (le_refl (0 : Int))]
    simp only [Int.toNat_zero, List.take_zero, List.append_nil]
    exact ⟨hcap, hlen, hcc, hfill, hplen, hslot⟩
  · by_cases hfull : rb.capacity - (rb.produced - rb.consumed) = 0
    · cases hbw : rb.nonblocking_write
      · rw [write_full_blocking rb data hne hcc hfill hfull hbw] at h
        by_cases hsem : rb.writing_semaphore = true
        · rw [if_pos hsem] at h
          by_cases hcanc : rb.is_writing_cancelled = true
          · rw [if_pos hcanc] at h
            have h' := Option.some.inj h
            have hr : (-3 : Int) = r := congrArg Prod.fst h'
            have hrb : ({ rb with writing_semaphore := false, is_writing_cancelled := false } : ringbuffer T) = rb' := congrArg Prod.snd h'
            subst hr
            subst hrb
            refine ⟨?_, rfl⟩
            rw [if_neg (by decide), List.append_nil]
            exact ⟨hcap, hlen, hcc, hfill, hplen, hslot⟩
          · rw [if_neg hcanc] at h
            exact Option.noConfusion h
        · rw [if_neg hsem] at h
          exact Option.noConfusion h
      · rw [write_full_nonblocking rb data hne hcc hfill hfull hbw] at h
        have h' := Option.some.inj h
        have hr : (-2 : Int) = r := congrArg Prod.fst h'
        have hrb : ({ rb with dropped := rb.dropped + 1 } : ringbuffer T) = rb' := congrArg Prod.snd h'
        subst hr
        subst hrb
        refine ⟨?_, rfl⟩
        rw [if_neg (by decide), List.append_nil]
        exact ⟨hcap, hlen, hcc, hfill, hplen, hslot⟩
    · rw [write_eq_transfer rb data hne hcc hfill (by omega)] at h
      have h' := Option.some.inj h
      set k := min data.length (rb.capacity - (rb.produced - rb.consumed))
        with hkdef
      have hkd : k ≤ data.length := Nat.min_le_left ..
      have hkf : k ≤ rb.capacity - (rb.produced - rb.consumed) :=
        Nat.min_le_right ..
      have hkl : (data.take k).length = k := by
        rw [List.length_take]
        omega
      have hr : ((data.take k).length : Int) = r := congrArg Prod.fst h'
      have hrb : (write_transfer rb (data.take k) rb.produced).2 = rb' := congrArg Prod.snd h'
      rw [hkl] at hr
      subst hr
      subst hrb
      rw [if_pos (by exact_mod_cast Nat.zero_le k), Int.toNat_natCast]
      refine ⟨⟨?_, ?_, ?_, ?_, ?_, ?_⟩, write_transfer_consumed ..⟩
      · rw [write_transfer_capacity]
        exact hcap
      · rw [write_transfer_storage_length, write_transfer_capacity, hlen]
      · rw [write_transfer_consumed, write_transfer_produced]
        omega
      · rw [write_transfer_consumed, write_transfer_produced,
            write_transfer_capacity, hkl]
        omega
      · rw [write_transfer_produced, List.length_append, hkl]
        omega
      · intro i hi1 hi2
        rw [write_transfer_consumed] at hi1
        rw [write_transfer_produced, hkl] at hi2
        rw [write_transfer_capacity]
        by_cases hip : i < rb.produced
        · rw [write_transfer_slot_out rb (data.take k) rb.produced hlen hcap
            (by rw [hkl]; omega) (i % rb.capacity) (Nat.mod_lt _ hcap) ?_]
          · rw [List.getElem?_append, if_pos (by omega)]
            exact hslot i hi1 hip
          · intro j hj
            rw [hkl] at hj
            exact (mod_ne_of_window (a := i) (b := rb.produced + j)
              (by omega) (by omega)).symm
        · have he : i = rb.produced + (i - rb.produced) := by omega
          rw [he, write_transfer_slot_eq rb (data.take k) rb.produced hlen hcap
            (by rw [hkl]; omega) (i - rb.produced) (by rw [hkl]; omega)]
          rw [List.getElem?_append, if_neg (by omega)]
          have hidx : rb.produced + (i - rb.produced) - W.length =
              i - rb.produced := by omega
          rw [hidx]

theorem rb_inv_read {rb : ringbuffer T} {W : List T} (hinv : rb_inv rb W)
    (n : Nat) (r : Int) (out : List T) (rb' : ringbuffer T)
    (h : read rb n = some (r, out, rb')) :
    rb_inv rb' W ∧ W.take rb.consumed ++ out = W.take rb'.consumed := by
  obtain ⟨hcap, hlen, hcc, hfill, hplen, hslot⟩ := hinv
  by_cases hn : n = 0
  · simp only [read, if_pos hn] at h
    have h' := Option.some.inj h
    have hout : ([] : List T) = out := congrArg (fun p => p.2.1) h'
    have hrb : rb = rb' := congrArg (fun p => p.2.2) h'
    subst hout
    subst hrb
    rw [List.append_nil]
    exact ⟨⟨hcap, hlen, hcc, hfill, hplen, hslot⟩, rfl⟩
  · by_cases hempty : rb.produced - rb.consumed = 0
    · cases hbr : rb.nonblocking_read
      · by_cases hsem : rb.reading_semaphore = true
        · by_cases hcanc : rb.is_reading_cancelled = true
          · rw [read_empty_blocking_cancelled rb n hn hcc hfill hempty hbr
              hsem hcanc] at h
            have h' := Option.some.inj h
            have hout : ([] : List T) = out := congrArg (fun p => p.2.1) h'
            have hrb : ({ rb with reading_semaphore := false, is_reading_cancelled := false } : ringbuffer T) = rb' := congrArg (fun p => p.2.2) h'
            subst hout
            subst hrb
            rw [List.append_nil]
            exact ⟨⟨hcap, hlen, hcc, hfill, hplen, hslot⟩, rfl⟩
          · rw [read_empty_blocking_stuck rb n hn hcc hfill hempty hbr
              hsem (by simpa using hcanc)] at h
            exact Option.noConfusion h
        · rw [read_empty_blocking_parks rb n hn hcc hfill hempty hbr
            (by simpa using hsem)] at h
          exact Option.noConfusion h
      · rw [read_empty_nonblocking rb n hn hcc hfill hempty hbr] at h
        have h' := Option.some.inj h
        have hout : ([] : List T) = out := congrArg (fun p => p.2.1) h'
        have hrb : rb = rb' := congrArg (fun p => p.2.2) h'
        subst hout
        subst hrb
        rw [List.append_nil]
        exact ⟨⟨hcap, hlen, hcc, hfill, hplen, hslot⟩, rfl⟩
    · rw [read_eq_transfer rb n hn hcc hfill (by omega)] at h
      have h' := Option.some.inj h
      set k := min n (rb.produced - rb.consumed) with hkdef
      have hka : k ≤ rb.produced - rb.consumed := Nat.min_le_right ..
      have hkc : k ≤ rb.capacity := by omega
      have hout : (read_transfer rb rb.consumed k).2.1 = out := congrArg (fun p => p.2.1) h'
      have hrb : (read_transfer rb rb.consumed k).2.2 = rb' := congrArg (fun p => p.2.2) h'
      subst hout
      subst hrb
      constructor
      · refine ⟨?_, ?_, ?_, ?_, ?_, ?_⟩
        · rw [read_transfer_capacity]
          exact hcap
        · rw [read_transfer_storage, read_transfer_capacity, hlen]
        · rw [read_transfer_consumed, read_transfer_produced]
          omega
        · rw [read_transfer_consumed, read_transfer_produced,
              read_transfer_capacity]
          omega
        · rw [read_transfer_produced]
          exact hplen
        · intro i hi1 hi2
          rw [read_transfer_consumed] at hi1
          rw [read_transfer_produced] at hi2
          rw [read_transfer_storage, read_transfer_capacity]
          exact hslot i (by omega) hi2
      · rw [read_transfer_consumed]
        have hout_eq : (read_transfer rb rb.consumed k).2.1 =
            (W.drop rb.consumed).take k := by
          apply List.ext_getElem?
          intro j
          by_cases hj : j < k
          · rw [read_transfer_out_getElem rb rb.consumed k hlen hcap hkc j hj,
                List.getElem?_take, if_pos hj, List.getElem?_drop]
            exact hslot (rb.consumed + j) (by omega) (by omega)
          · rw [List.getElem?_eq_none (by
                rw [read_transfer_out_length rb rb.consumed k hlen hcap hkc]
                omega),
              List.getElem?_eq_none (by
                rw [List.length_take, List.length_drop]
                omega)]
        rw [hout_eq, ← List.take_add]

theorem run_ops_spec (ops : List (rb_op T)) :
    ∀ (rb : ringbuffer T) (W : List T), rb_inv rb W →
      rb_inv (run_ops rb ops).1 (W ++ (run_ops rb ops).2.1) ∧
      W.take rb.consumed ++ (run_ops rb ops).2.2 =
        (W ++ (run_ops rb ops).2.1).take ((run_ops rb ops).1.consumed) := by
  induction ops with
  | nil =>
      intro rb W hinv
      simp only [run_ops, List.append_nil]
      exact ⟨hinv, trivial⟩
  | cons op rest ih =>
      intro rb W hinv
      have hWlen : rb.consumed ≤ W.length := by
        obtain ⟨_, _, hcc, _, hplen, _⟩ := hinv
        omega
      cases op with
      | wr data =>
          cases hw : write rb data with
          | none =>
              simp only [run_ops, hw, List.append_nil]
              exact ⟨hinv, trivial⟩
          | some pr =>
              obtain ⟨r, rb1⟩ := pr
              have hstep := rb_inv_write hinv data r rb1 hw
              have ih1 := ih rb1
                (W ++ (if 0 ≤ r then data.take r.toNat else [])) hstep.1
              simp only [run_ops, hw]
              constructor
              · rw [← List.append_assoc]
                exact ih1.1
              · have h2 := ih1.2
                rw [hstep.2] at h2
                rw [List.take_append_of_le_length hWlen] at h2
                rw [← List.append_assoc]
                exact h2
      | rd n =>
          cases hr : read rb n with
          | none =>
              simp only [run_ops, hr, List.append_nil]
              exact ⟨hinv, trivial⟩
          | some tr =>
              obtain ⟨r, out, rb1⟩ := tr
              have hstep := rb_inv_read hinv n r out rb1 hr
              have ih1 := ih rb1 W hstep.1
              simp only [run_ops, hr]
              refine ⟨ih1.1, ?_⟩
              rw [← List.append_assoc, hstep.2]
              exact ih1.2

/-- C1: For every ring buffer operated sequentially under the SPSC
discipline and every finite sequence of interleaved write and read calls,
the concatenation of the elements delivered by the reads is a prefix of the
concatenation of the elements transferred by the writes (FIFO order, no
loss, no duplication, no reordering).  Proved unconditionally on the trace
(calls returning negative statuses transfer and deliver nothing), which in
particular covers traces whose calls all return non-negative counts. -/
theorem C1_fifo_order (T : Type) [Inhabited T] (ops : List (rb_op T))
    (capacity : Nat) (nbw nbr : Bool) (hcap : 0 < capacity) :
    (run_ops (mk_ringbuffer T capacity nbw nbr) ops).2.2 <+:
      (run_ops (mk_ringbuffer T capacity nbw nbr) ops).2.1 := by
  have hinv : rb_inv (mk_ringbuffer T capacity nbw nbr) ([] : List T) := by
    refine ⟨hcap, ?_, Nat.le_refl 0, ?_, rfl, ?_⟩
    · simp [mk_ringbuffer]
    · simp [mk_ringbuffer]
    · intro i _ hi2
      exact absurd hi2 (by simp [mk_ringbuffer])
  have h2 := (run_ops_spec ops (mk_ringbuffer T capacity nbw nbr) [] hinv).2
  rw [List.take_nil, List.nil_append, List.nil_append] at h2
  rw [h2]
  exact ⟨_, List.take_append_drop _ _⟩

/-- Witness for C1 on a concrete capacity-2 trace with clamped writes and
partial reads. -/
theorem C1_fifo_order_witness :
    (run_ops (mk_ringbuffer Nat 2 true true)
      [rb_op.wr [1, 2, 3], rb_op.rd 2, rb_op.wr [4], rb_op.rd 3]).2.2 <+:
      (run_ops (mk_ringbuffer Nat 2 true true)
        [rb_op.wr [1, 2, 3], rb_op.rd 2, rb_op.wr [4], rb_op.rd 3]).2.1 :=
  C1_fifo_order Nat [rb_op.wr [1, 2, 3], rb_op.rd 2, rb_op.wr [4], rb_op.rd 3]
    2 true true (by decide)

/-- C2: for a non-blocking write on a valid ring buffer with a request of
n > 0 elements: with zero free slots the write returns WOULD_BLOCK (-2) and
increments `dropped` by exactly one regardless of n; otherwise it transfers
exactly min(n, free) elements into the ring slots, returns that count and
leaves `dropped` unchanged.  The final conjunct is scenario S3: writing
[1,2,3,4] into an empty capacity-2 buffer returns 2 with storage [1,2] and
`dropped` unchanged. -/
theorem C2_nonblocking_write (rb : ringbuffer Nat) (data : List Nat)
    (hcap : 0 < rb.capacity) (hlen : rb.storage.length = rb.capacity)
    (hcc : rb.consumed ≤ rb.produced)
    (hfill : rb.produced - rb.consumed ≤ rb.capacity)
    (hnb : rb.nonblocking_write = true) (hne : data.length ≠ 0) :
    (rb.produced - rb.consumed = rb.capacity →
       write rb data = some (-2, { rb with dropped := rb.dropped + 1 })) ∧
    (rb.produced - rb.consumed < rb.capacity →
       ∃ rb2, write rb data =
           some (((min data.length (rb.capacity - (rb.produced - rb.consumed)) : Nat) : Int), rb2) ∧
         rb2.produced =
           rb.produced + min data.length (rb.capacity - (rb.produced - rb.consumed)) ∧
         rb2.consumed = rb.consumed ∧
         rb2.dropped = rb.dropped ∧
         ∀ j < min data.length (rb.capacity - (rb.produced - rb.consumed)),
           rb2.storage[(rb.produced + j) % rb.capacity]? = data[j]?) ∧
    write (mk_ringbuffer Nat 2 true true) [1, 2, 3, 4] =
      some (2, { mk_ringbuffer Nat 2 true true with produced := 2, storage := [1, 2] }) := by
  refine ⟨?_, ?_, by decide⟩
  · intro hfull
    exact write_full_nonblocking rb data hne hcc hfill (by omega) hnb
  · intro hless
    refine ⟨(write_transfer rb
        (data.take (min data.length (rb.capacity - (rb.produced - rb.consumed))))
        rb.produced).2, ?_, ?_, write_transfer_consumed .., write_transfer_dropped .., ?_⟩
    · rw [write_eq_transfer rb data hne hcc hfill (by omega)]
      congr 1
      refine Prod.ext ?_ rfl
      rw [write_transfer_result, List.length_take]
      congr 1
      omega
    · rw [write_transfer_produced, List.length_take]
      omega
    · intro j hj
      rw [write_transfer_slot_eq rb _ rb.produced hlen hcap
        (by rw [List.length_take]; omega) j (by rw [List.length_take]; omega),
        List.getElem?_take, if_pos hj]

/-- Witness for C2: scenario S3 obtained from the theorem at the empty
capacity-2 buffer. -/
theorem C2_nonblocking_write_witness :
    write (mk_ringbuffer Nat 2 true true) [1, 2, 3, 4] =
      some (2, { mk_ringbuffer Nat 2 true true with produced := 2, storage := [1, 2] }) :=
  (C2_nonblocking_write (mk_ringbuffer Nat 2 true true) [1, 2, 3, 4]
    (by decide) (by decide) (by decide) (by decide) rfl (by decide)).2.2

/-- C6: `get_counters` returns INTERNAL_ERROR exactly when the loaded
counters violate `produced ≥ consumed` or `produced - consumed ≤ capacity`,
and otherwise OK with the triple; a write or read whose snapshot violates
the invariants returns INTERNAL_ERROR (-1) leaving the buffer untouched. -/
theorem C6_counter_validation (rb : ringbuffer Nat) (data : List Nat) (n : Nat)
    (hne : data.length ≠ 0) (hn : n ≠ 0) :
    (rb.produced < rb.consumed ∨ rb.capacity < rb.produced - rb.consumed →
       get_counters rb = (ringbuffer_status.INTERNAL_ERROR, 0, 0, 0) ∧
       write rb data = some (-1, rb) ∧
       read rb n = some (-1, [], rb)) ∧
    (rb.consumed ≤ rb.produced → rb.produced - rb.consumed ≤ rb.capacity →
       get_counters rb = (ringbuffer_status.OK, rb.produced, rb.consumed, rb.dropped)) := by
  constructor
  · intro hbad
    exact ⟨get_counters_err rb hbad, write_err rb data hne hbad,
      read_err rb n hn hbad⟩
  · intro h1 h2
    exact get_counters_ok rb h1 h2

/-- A corrupted counter state used to exercise the error path of C6. -/
def c6_bad : ringbuffer Nat :=
  { capacity := 1, nonblocking_write := true, nonblocking_read := true,
    produced := 0, consumed := 5, dropped := 0, storage := [0],
    writing_semaphore := true, reading_semaphore := false,
    is_writing_cancelled := false, is_reading_cancelled := false }

/-- Witness for C6 on a corrupted state and on a fresh state. -/
theorem C6_counter_validation_witness :
    (get_counters c6_bad = (ringbuffer_status.INTERNAL_ERROR, 0, 0, 0) ∧
     write c6_bad [7] = some (-1, c6_bad) ∧
     read c6_bad 1 = some (-1, [], c6_bad)) ∧
    get_counters (mk_ringbuffer Nat 2 true true) =
      (ringbuffer_status.OK, 0, 0, 0) :=
  ⟨(C6_counter_validation c6_bad [7] 1 (by decide) (by decide)).1 (by decide),
   (C6_counter_validation (mk_ringbuffer Nat 2 true true) [7] 1
     (by decide) (by decide)).2 (by decide) (by decide)⟩

/-- C7: `reset(PRODUCER)` sets `produced` to the current `consumed` and
`dropped` to 0 leaving `consumed` (and storage) unchanged; `reset(CONSUMER)`
sets `consumed` to the current `produced` leaving `produced` and `dropped`
unchanged; and writing k ≤ capacity elements after a producer reset leaves
`produced` equal to the pre-reset `consumed` plus k. -/
theorem C7_reset (rb : ringbuffer Nat) (data : List Nat)
    (hcap : 0 < rb.capacity) (hdl : data.length ≤ rb.capacity) :
    (reset rb .PRODUCER).produced = rb.consumed ∧
    (reset rb .PRODUCER).dropped = 0 ∧
    (reset rb .PRODUCER).consumed = rb.consumed ∧
    (reset rb .PRODUCER).storage = rb.storage ∧
    (reset rb .CONSUMER).consumed = rb.produced ∧
    (reset rb .CONSUMER).produced = rb.produced ∧
    (reset rb .CONSUMER).dropped = rb.dropped ∧
    (reset rb .CONSUMER).storage = rb.storage ∧
    (∃ r rb2, write (reset rb .PRODUCER) data = some (r, rb2) ∧
       rb2.produced = rb.consumed + data.length) := by
  refine ⟨rfl, rfl, rfl, rfl, rfl, rfl, rfl, rfl, ?_⟩
  by_cases hne : data.length = 0
  · refine ⟨0, reset rb .PRODUCER, ?_, ?_⟩
    · simp only [write, if_pos hne]
    · show rb.consumed = rb.consumed + data.length
      omega
  · have hcc : (reset rb ringbuffer_role.PRODUCER).consumed ≤
        (reset rb ringbuffer_role.PRODUCER).produced := le_refl rb.consumed
    have hfill : (reset rb ringbuffer_role.PRODUCER).produced -
        (reset rb ringbuffer_role.PRODUCER).consumed ≤
        (reset rb ringbuffer_role.PRODUCER).capacity := by
      show rb.consumed - rb.consumed ≤ rb.capacity
      omega
    have hfree : 0 < (reset rb ringbuffer_role.PRODUCER).capacity -
        ((reset rb ringbuffer_role.PRODUCER).produced -
         (reset rb ringbuffer_role.PRODUCER).consumed) := by
      show 0 < rb.capacity - (rb.consumed - rb.consumed)
      omega
    refine ⟨_, _,
      write_eq_transfer (reset rb .PRODUCER) data hne hcc hfill hfree, ?_⟩
    dsimp only
    rw [List.length_take]
    show rb.consumed + min (min data.length
      (rb.capacity - (rb.consumed - rb.consumed))) data.length =
      rb.consumed + data.length
    omega

/-- A populated intermediate state used to exercise C7 at nonzero counters. -/
def c7_state : ringbuffer Nat :=
  { capacity := 3, nonblocking_write := true, nonblocking_read := true,
    produced := 5, consumed := 4, dropped := 2, storage := [9, 9, 9],
    writing_semaphore := true, reading_semaphore := false,
    is_writing_cancelled := false, is_reading_cancelled := false }

/-- Witness for C7 at a populated state. -/
theorem C7_reset_witness :
    (reset c7_state .PRODUCER).produced = c7_state.consumed ∧
    (reset c7_state .PRODUCER).dropped = 0 ∧
    (reset c7_state .CONSUMER).consumed = c7_state.produced ∧
    (∃ r rb2, write (reset c7_state .PRODUCER) [1, 2] = some (r, rb2) ∧
       rb2.produced = c7_state.consumed + [1, 2].length) :=
  ⟨(C7_reset c7_state [1, 2] (by decide) (by decide)).1,
   (C7_reset c7_state [1, 2] (by decide) (by decide)).2.1,
   (C7_reset c7_state [1, 2] (by decide) (by decide)).2.2.2.2.1,
   (C7_reset c7_state [1, 2] (by decide) (by decide)).2.2.2.2.2.2.2.2⟩

/-- C4: on a freshly constructed buffer of capacity at least N, writing N
elements and then reading N yields output equal to input, leaves `dropped`
unchanged (0) and leaves produced = consumed = N, the k-th element being
stored in slot k mod capacity; and on a fresh capacity-4 buffer the
sequence write 3, read 3, write 4, read 4 round-trips all values ending
with produced = consumed = 7 (scenario S5). -/
theorem C4_roundtrip (data : List Nat) (capacity : Nat)
    (hcap : 0 < capacity) (hlen : data.length ≤ capacity) :
    (∃ rb1 rb2,
       write (mk_ringbuffer Nat capacity true true) data = some ((data.length : Int), rb1) ∧
       (∀ j < data.length, rb1.storage[j % capacity]? = data[j]?) ∧
       read rb1 data.length = some ((data.length : Int), data, rb2) ∧
       rb2.produced = data.length ∧ rb2.consumed = data.length ∧
       rb2.dropped = 0) ∧
    (run_ops (mk_ringbuffer Nat 4 true true)
       [rb_op.wr [1, 2, 3], rb_op.rd 3, rb_op.wr [4, 5, 6, 7], rb_op.rd 4]).1.produced = 7 ∧
    (run_ops (mk_ringbuffer Nat 4 true true)
       [rb_op.wr [1, 2, 3], rb_op.rd 3, rb_op.wr [4, 5, 6, 7], rb_op.rd 4]).1.consumed = 7 ∧
    (run_ops (mk_ringbuffer Nat 4 true true)
       [rb_op.wr [1, 2, 3], rb_op.rd 3, rb_op.wr [4, 5, 6, 7], rb_op.rd 4]).1.dropped = 0 ∧
    (run_ops (mk_ringbuffer Nat 4 true true)
       [rb_op.wr [1, 2, 3], rb_op.rd 3, rb_op.wr [4, 5, 6, 7], rb_op.rd 4]).2.1 = [1, 2, 3, 4, 5, 6, 7] ∧
    (run_ops (mk_ringbuffer Nat 4 true true)
       [rb_op.wr [1, 2, 3], rb_op.rd 3, rb_op.wr [4, 5, 6, 7], rb_op.rd 4]).2.2 = [1, 2, 3, 4, 5, 6, 7] := by
  refine ⟨?_, by decide, by decide, by decide, by decide, by decide⟩
  by_cases hne : data.length = 0
  · have hd : data = [] := List.length_eq_zero.mp hne
    subst hd
    refine ⟨(mk_ringbuffer Nat capacity true true), (mk_ringbuffer Nat capacity true true), rfl, ?_, rfl, rfl, rfl, rfl⟩
    intro j hj
    exact absurd hj (Nat.not_lt_zero j)
  · have hst : (mk_ringbuffer Nat capacity true true).storage.length = (mk_ringbuffer Nat capacity true true).capacity := by
      simp [mk_ringbuffer]
    have hw := write_eq_transfer (mk_ringbuffer Nat capacity true true) data hne (le_refl 0) (Nat.zero_le _) hcap
    have hmin : min data.length
        ((mk_ringbuffer Nat capacity true true).capacity - ((mk_ringbuffer Nat capacity true true).produced - (mk_ringbuffer Nat capacity true true).consumed)) = data.length := by
      show min data.length (capacity - (0 - 0)) = data.length
      omega
    rw [hmin, List.take_length] at hw
    have h1p : (write_transfer (mk_ringbuffer Nat capacity true true) data (mk_ringbuffer Nat capacity true true).produced).2.produced = data.length := by
      rw [write_transfer_produced]
      show 0 + data.length = data.length
      omega
    have h1c : (write_transfer (mk_ringbuffer Nat capacity true true) data (mk_ringbuffer Nat capacity true true).produced).2.consumed = 0 := write_transfer_consumed ..
    have h1cap : (write_transfer (mk_ringbuffer Nat capacity true true) data (mk_ringbuffer Nat capacity true true).produced).2.capacity = capacity := write_transfer_capacity ..
    have h1len : (write_transfer (mk_ringbuffer Nat capacity true true) data (mk_ringbuffer Nat capacity true true).produced).2.storage.length = capacity := by
      rw [write_transfer_storage_length]
      exact hst
    have hslot : ∀ j < data.length, (write_transfer (mk_ringbuffer Nat capacity true true) data (mk_ringbuffer Nat capacity true true).produced).2.storage[j % capacity]? = data[j]? := by
      intro j hj
      have hs := write_transfer_slot_eq (mk_ringbuffer Nat capacity true true) data (mk_ringbuffer Nat capacity true true).produced hst hcap
        hlen j hj
      have e : (mk_ringbuffer Nat capacity true true).produced + j = j := by
        show 0 + j = j
        omega
      rw [e] at hs
      exact hs
    have h2cc : (write_transfer (mk_ringbuffer Nat capacity true true) data (mk_ringbuffer Nat capacity true true).produced).2.consumed ≤ (write_transfer (mk_ringbuffer Nat capacity true true) data (mk_ringbuffer Nat capacity true true).produced).2.produced := by
      rw [h1c, h1p]
      omega
    have h2fill : (write_transfer (mk_ringbuffer Nat capacity true true) data (mk_ringbuffer Nat capacity true true).produced).2.produced - (write_transfer (mk_ringbuffer Nat capacity true true) data (mk_ringbuffer Nat capacity true true).produced).2.consumed ≤ (write_transfer (mk_ringbuffer Nat capacity true true) data (mk_ringbuffer Nat capacity true true).produced).2.capacity := by
      rw [h1c, h1p, h1cap]
      omega
    have h2avail : 0 < (write_transfer (mk_ringbuffer Nat capacity true true) data (mk_ringbuffer Nat capacity true true).produced).2.produced - (write_transfer (mk_ringbuffer Nat capacity true true) data (mk_ringbuffer Nat capacity true true).produced).2.consumed := by
      rw [h1c, h1p]
      omega
    have hr := read_eq_transfer (write_transfer (mk_ringbuffer Nat capacity true true) data (mk_ringbuffer Nat capacity true true).produced).2 data.length hne h2cc h2fill h2avail
    have hmin2 : min data.length ((write_transfer (mk_ringbuffer Nat capacity true true) data (mk_ringbuffer Nat capacity true true).produced).2.produced - (write_transfer (mk_ringbuffer Nat capacity true true) data (mk_ringbuffer Nat capacity true true).produced).2.consumed) =
        data.length := by
      rw [h1c, h1p]
      omega
    rw [hmin2] at hr
    have hout : (read_transfer (write_transfer (mk_ringbuffer Nat capacity true true) data (mk_ringbuffer Nat capacity true true).produced).2 (write_transfer (mk_ringbuffer Nat capacity true true) data (mk_ringbuffer Nat capacity true true).produced).2.consumed data.length).2.1 = data := by
      apply List.ext_getElem?
      intro j
      by_cases hj : j < data.length
      · rw [read_transfer_out_getElem (write_transfer (mk_ringbuffer Nat capacity true true) data (mk_ringbuffer Nat capacity true true).produced).2 (write_transfer (mk_ringbuffer Nat capacity true true) data (mk_ringbuffer Nat capacity true true).produced).2.consumed data.length
          (by rw [h1len, h1cap]) (by rw [h1cap]; exact hcap)
          (by rw [h1cap]; exact hlen) j hj]
        have e : (write_transfer (mk_ringbuffer Nat capacity true true) data (mk_ringbuffer Nat capacity true true).produced).2.consumed + j = j := by
          rw [h1c]
          omega
        rw [e, h1cap]
        exact hslot j hj
      · rw [List.getElem?_eq_none (by
            rw [read_transfer_out_length (write_transfer (mk_ringbuffer Nat capacity true true) data (mk_ringbuffer Nat capacity true true).produced).2 (write_transfer (mk_ringbuffer Nat capacity true true) data (mk_ringbuffer Nat capacity true true).produced).2.consumed data.length
              (by rw [h1len, h1cap]) (by rw [h1cap]; exact hcap)
              (by rw [h1cap]; exact hlen)]
            omega),
          List.getElem?_eq_none (by omega)]
    refine ⟨(write_transfer (mk_ringbuffer Nat capacity true true) data (mk_ringbuffer Nat capacity true true).produced).2, (read_transfer (write_transfer (mk_ringbuffer Nat capacity true true) data (mk_ringbuffer Nat capacity true true).produced).2 (write_transfer (mk_ringbuffer Nat capacity true true) data (mk_ringbuffer Nat capacity true true).produced).2.consumed data.length).2.2,
      ?_, hslot, ?_, ?_, ?_, ?_⟩
    · rw [hw]
      congr 1
    · rw [hr]
      congr 1
      exact Prod.ext rfl (Prod.ext hout rfl)
    · rw [read_transfer_produced, h1p]
    · rw [read_transfer_consumed, h1c]
      omega
    · rw [read_transfer_dropped, write_transfer_dropped]
      rfl

/-- Witness for C4 at a concrete 3-element round trip on capacity 4. -/
theorem C4_roundtrip_witness :
    ∃ rb1 rb2,
      write (mk_ringbuffer Nat 4 true true) [5, 6, 7] = some (3, rb1) ∧
      (∀ j < [5, 6, 7].length, rb1.storage[j % 4]? = [5, 6, 7][j]?) ∧
      read rb1 [5, 6, 7].length = some (3, [5, 6, 7], rb2) ∧
      rb2.produced = [5, 6, 7].length ∧ rb2.consumed = [5, 6, 7].length ∧
      rb2.dropped = 0 :=
  (C4_roundtrip [5, 6, 7] 4 (by decide) (by decide)).1

/-- C3: with blocking reads, after `cancel(CONSUMER)` the next read that
finds the buffer empty returns OPERATION_CANCELLED (-3) exactly once,
clearing the reading-cancelled flag and touching nothing else; a further
read on the still-empty buffer parks (it does not report cancellation
again), and once data is written a subsequent read returns it normally. -/
theorem C3_cancelled_blocking_read (rb : ringbuffer Nat) (x : Nat) (n m q : Nat)
    (hcap : 0 < rb.capacity) (hlen : rb.storage.length = rb.capacity)
    (hempty : rb.produced = rb.consumed)
    (hbl : rb.nonblocking_read = false)
    (hn : n ≠ 0) (hm : m ≠ 0) (hq : q ≠ 0) :
    ∃ rb2 rb3 rb4,
      read (cancel rb .CONSUMER) n = some (-3, [], rb2) ∧
      rb2.is_reading_cancelled = false ∧
      rb2.produced = rb.produced ∧ rb2.consumed = rb.consumed ∧
      rb2.storage = rb.storage ∧ rb2.dropped = rb.dropped ∧
      read rb2 m = none ∧
      write rb2 [x] = some (1, rb3) ∧
      read rb3 q = some (1, [x], rb4) := by
  have hc : cancel rb ringbuffer_role.CONSUMER = ({ rb with is_reading_cancelled := true, reading_semaphore := true } : ringbuffer Nat) := by
    simp [cancel, hbl]
  have h1 : read ({ rb with is_reading_cancelled := true, reading_semaphore := true } : ringbuffer Nat) n = some (-3, [], ({ rb with reading_semaphore := false, is_reading_cancelled := false } : ringbuffer Nat)) :=
    read_empty_blocking_cancelled ({ rb with is_reading_cancelled := true, reading_semaphore := true } : ringbuffer Nat) n hn
      (by show rb.consumed ≤ rb.produced; omega)
      (by show rb.produced - rb.consumed ≤ rb.capacity; omega)
      (by show rb.produced - rb.consumed = 0; omega)
      hbl rfl rfl
  have h2 : read ({ rb with reading_semaphore := false, is_reading_cancelled := false } : ringbuffer Nat) m = none :=
    read_empty_blocking_parks ({ rb with reading_semaphore := false, is_reading_cancelled := false } : ringbuffer Nat) m hm
      (by show rb.consumed ≤ rb.produced; omega)
      (by show rb.produced - rb.consumed ≤ rb.capacity; omega)
      (by show rb.produced - rb.consumed = 0; omega)
      hbl rfl
  have hw := write_eq_transfer ({ rb with reading_semaphore := false, is_reading_cancelled := false } : ringbuffer Nat) [x] (by show (1 : Nat) ≠ 0; omega)
    (by show rb.consumed ≤ rb.produced; omega)
    (by show rb.produced - rb.consumed ≤ rb.capacity; omega)
    (by show 0 < rb.capacity - (rb.produced - rb.consumed); omega)
  have htk : [x].take (min ([x].length)
      (({ rb with reading_semaphore := false, is_reading_cancelled := false } : ringbuffer Nat).capacity - (({ rb with reading_semaphore := false, is_reading_cancelled := false } : ringbuffer Nat).produced - ({ rb with reading_semaphore := false, is_reading_cancelled := false } : ringbuffer Nat).consumed))) = [x] :=
    List.take_of_length_le (by
      show (1 : Nat) ≤ min 1 (rb.capacity - (rb.produced - rb.consumed))
      omega)
  rw [htk] at hw
  have e3p : (write_transfer ({ rb with reading_semaphore := false, is_reading_cancelled := false } : ringbuffer Nat) [x] ({ rb with reading_semaphore := false, is_reading_cancelled := false } : ringbuffer Nat).produced).2.produced = rb.produced + 1 := by
    rw [write_transfer_produced]
    show rb.produced + [x].length = rb.produced + 1
    rfl
  have e3c : (write_transfer ({ rb with reading_semaphore := false, is_reading_cancelled := false } : ringbuffer Nat) [x] ({ rb with reading_semaphore := false, is_reading_cancelled := false } : ringbuffer Nat).produced).2.consumed = rb.consumed := write_transfer_consumed ..
  have e3cap : (write_transfer ({ rb with reading_semaphore := false, is_reading_cancelled := false } : ringbuffer Nat) [x] ({ rb with reading_semaphore := false, is_reading_cancelled := false } : ringbuffer Nat).produced).2.capacity = rb.capacity := write_transfer_capacity ..
  have e3len : (write_transfer ({ rb with reading_semaphore := false, is_reading_cancelled := false } : ringbuffer Nat) [x] ({ rb with reading_semaphore := false, is_reading_cancelled := false } : ringbuffer Nat).produced).2.storage.length = rb.capacity := by
    rw [write_transfer_storage_length]
    exact hlen
  have hr := read_eq_transfer (write_transfer ({ rb with reading_semaphore := false, is_reading_cancelled := false } : ringbuffer Nat) [x] ({ rb with reading_semaphore := false, is_reading_cancelled := false } : ringbuffer Nat).produced).2 q hq
    (by rw [e3c, e3p]; omega)
    (by rw [e3c, e3p, e3cap]; omega)
    (by rw [e3c, e3p]; omega)
  have hmin : min q ((write_transfer ({ rb with reading_semaphore := false, is_reading_cancelled := false } : ringbuffer Nat) [x] ({ rb with reading_semaphore := false, is_reading_cancelled := false } : ringbuffer Nat).produced).2.produced - (write_transfer ({ rb with reading_semaphore := false, is_reading_cancelled := false } : ringbuffer Nat) [x] ({ rb with reading_semaphore := false, is_reading_cancelled := false } : ringbuffer Nat).produced).2.consumed) = 1 := by
    rw [e3c, e3p]
    omega
  rw [hmin] at hr
  have hout : (read_transfer (write_transfer ({ rb with reading_semaphore := false, is_reading_cancelled := false } : ringbuffer Nat) [x] ({ rb with reading_semaphore := false, is_reading_cancelled := false } : ringbuffer Nat).produced).2 (write_transfer ({ rb with reading_semaphore := false, is_reading_cancelled := false } : ringbuffer Nat) [x] ({ rb with reading_semaphore := false, is_reading_cancelled := false } : ringbuffer Nat).produced).2.consumed 1).2.1 = [x] := by
    apply List.ext_getElem?
    intro j
    by_cases hj : j < 1
    · have hj0 : j = 0 := by omega
      subst hj0
      rw [read_transfer_out_getElem (write_transfer ({ rb with reading_semaphore := false, is_reading_cancelled := false } : ringbuffer Nat) [x] ({ rb with reading_semaphore := false, is_reading_cancelled := false } : ringbuffer Nat).produced).2 (write_transfer ({ rb with reading_semaphore := false, is_reading_cancelled := false } : ringbuffer Nat) [x] ({ rb with reading_semaphore := false, is_reading_cancelled := false } : ringbuffer Nat).produced).2.consumed 1
        (by rw [e3len, e3cap]) (by rw [e3cap]; exact hcap)
        (by rw [e3cap]; omega) 0 (by omega)]
      have e : (write_transfer ({ rb with reading_semaphore := false, is_reading_cancelled := false } : ringbuffer Nat) [x] ({ rb with reading_semaphore := false, is_reading_cancelled := false } : ringbuffer Nat).produced).2.consumed + 0 = rb.produced := by
        rw [e3c]
        omega
      rw [e, e3cap]
      have hs := write_transfer_slot_eq ({ rb with reading_semaphore := false, is_reading_cancelled := false } : ringbuffer Nat) [x] ({ rb with reading_semaphore := false, is_reading_cancelled := false } : ringbuffer Nat).produced hlen hcap
        (by show (1 : Nat) ≤ rb.capacity; omega) 0 (by show (0 : Nat) < 1; omega)
      have e2 : ({ rb with reading_semaphore := false, is_reading_cancelled := false } : ringbuffer Nat).produced + 0 = rb.produced := by
        show rb.produced + 0 = rb.produced
        omega
      rw [e2] at hs
      exact hs
    · rw [List.getElem?_eq_none (by
          rw [read_transfer_out_length (write_transfer ({ rb with reading_semaphore := false, is_reading_cancelled := false } : ringbuffer Nat) [x] ({ rb with reading_semaphore := false, is_reading_cancelled := false } : ringbuffer Nat).produced).2 (write_transfer ({ rb with reading_semaphore := false, is_reading_cancelled := false } : ringbuffer Nat) [x] ({ rb with reading_semaphore := false, is_reading_cancelled := false } : ringbuffer Nat).produced).2.consumed 1
            (by rw [e3len, e3cap]) (by rw [e3cap]; exact hcap)
            (by rw [e3cap]; omega)]
          omega),
        List.getElem?_eq_none (by show (1 : Nat) ≤ j; omega)]
  refine ⟨({ rb with reading_semaphore := false, is_reading_cancelled := false } : ringbuffer Nat), (write_transfer ({ rb with reading_semaphore := false, is_reading_cancelled := false } : ringbuffer Nat) [x] ({ rb with reading_semaphore := false, is_reading_cancelled := false } : ringbuffer Nat).produced).2, (read_transfer (write_transfer ({ rb with reading_semaphore := false, is_reading_cancelled := false } : ringbuffer Nat) [x] ({ rb with reading_semaphore := false, is_reading_cancelled := false } : ringbuffer Nat).produced).2 (write_transfer ({ rb with reading_semaphore := false, is_reading_cancelled := false } : ringbuffer Nat) [x] ({ rb with reading_semaphore := false, is_reading_cancelled := false } : ringbuffer Nat).produced).2.consumed 1).2.2,
    ?_, rfl, rfl, rfl, rfl, rfl, h2, ?_, ?_⟩
  · rw [hc]
    exact h1
  · rw [hw]
    congr 1
  · rw [hr]
    congr 1
    exact Prod.ext rfl (Prod.ext hout rfl)

/-- Witness for C3 on a fresh capacity-4 read-blocking buffer with value 7. -/
theorem C3_cancelled_blocking_read_witness :
    ∃ rb2 rb3 rb4,
      read (cancel (mk_ringbuffer Nat 4 true false) .CONSUMER) 1 =
        some (-3, [], rb2) ∧
      rb2.is_reading_cancelled = false ∧
      rb2.produced = (mk_ringbuffer Nat 4 true false).produced ∧
      rb2.consumed = (mk_ringbuffer Nat 4 true false).consumed ∧
      rb2.storage = (mk_ringbuffer Nat 4 true false).storage ∧
      rb2.dropped = (mk_ringbuffer Nat 4 true false).dropped ∧
      read rb2 1 = none ∧
      write rb2 [7] = some (1, rb3) ∧
      read rb3 1 = some (1, [7], rb4) :=
  C3_cancelled_blocking_read (mk_ringbuffer Nat 4 true false) 7 1 1 1
    (by decide) (by decide) (by decide) (by decide)
    (by decide) (by decide) (by decide)

/-! ### Failure of the callback-driven transfers -/

theorem xfer_producer_fails (st : List T) (idx : Nat) (cb : Nat → Option T)
    (j k : Nat) (hex : ∃ i, i < k ∧ cb (j + i) = none) :
    (xfer_producer st idx cb j k).2 = false := by
  cases hb : (xfer_producer st idx cb j k).2
  · rfl
  · obtain ⟨i, hi, hnone⟩ := hex
    have := (xfer_producer_ok_iff st idx cb j k).mp hb i hi
    rw [hnone] at this
    simp at this

theorem xfer_consumer_fails (cb : Nat → Bool) (j k : Nat)
    (hex : ∃ i, i < k ∧ cb (j + i) = false) :
    xfer_consumer cb j k = false := by
  cases hb : xfer_consumer cb j k
  · rfl
  · obtain ⟨i, hi, hfalse⟩ := hex
    have := (xfer_consumer_ok_iff cb j k).mp hb i hi
    rw [hfalse] at this
    exact Bool.noConfusion this

theorem write_via_eq_go (rb : ringbuffer T) (cb : Nat → Option T) (n : Nat)
    (hn : n ≠ 0) (h1 : rb.consumed ≤ rb.produced)
    (h2 : rb.produced - rb.consumed ≤ rb.capacity)
    (hfree : 0 < rb.capacity - (rb.produced - rb.consumed)) :
    write_via rb cb n = some (write_via_go rb cb n rb.produced) := by
  simp only [write_via]
  rw [get_counters_ok rb h1 h2, if_neg hn]
  cases hbw : rb.nonblocking_write
  · rw [if_neg Bool.false_ne_true, if_neg (by simp)]
    dsimp only
    rw [if_pos hfree]
  · rw [if_pos rfl, if_neg (by simp)]
    dsimp only
    rw [if_neg (by omega)]

theorem read_via_eq_go (rb : ringbuffer T) (cb : Nat → Bool) (n : Nat)
    (hn : n ≠ 0) (h1 : rb.consumed ≤ rb.produced)
    (h2 : rb.produced - rb.consumed ≤ rb.capacity)
    (havail : 0 < rb.produced - rb.consumed) :
    read_via rb cb n = some (read_via_go rb cb n rb.consumed) := by
  simp only [read_via]
  rw [get_counters_ok rb h1 h2, if_neg hn]
  cases hbr : rb.nonblocking_read
  · rw [if_neg Bool.false_ne_true, if_neg (by simp)]
    dsimp only
    rw [if_pos havail]
  · rw [if_pos rfl, if_neg (by simp)]
    dsimp only
    rw [if_neg (by omega)]

theorem write_via_go_fail (rb : ringbuffer T) (cb : Nat → Option T) (n : Nat)
    (hfail : ∃ j, j < min n (rb.capacity - (rb.produced - rb.consumed)) ∧
       cb j = none) :
    ∃ st, write_via_go rb cb n rb.produced =
      (-1, { rb with storage := st }) := by
  obtain ⟨j0, hj0, hj0none⟩ := hfail
  have hcap0 : 0 < rb.capacity := by omega
  have hmod : rb.produced % rb.capacity < rb.capacity :=
    Nat.mod_lt _ hcap0
  simp only [write_via_go]
  by_cases hsplit : rb.capacity < rb.produced % rb.capacity +
      min n (rb.capacity - (rb.produced - rb.consumed))
  · rw [if_pos hsplit]
    have hpos : 0 < rb.capacity - rb.produced % rb.capacity := by omega
    rw [if_pos hpos, if_pos hpos]
    by_cases hfirst : ∃ i, i < rb.capacity - rb.produced % rb.capacity ∧
        cb i = none
    · have hst1 : (xfer_producer rb.storage (rb.produced % rb.capacity) cb 0
          (rb.capacity - rb.produced % rb.capacity)).2 = false := by
        apply xfer_producer_fails
        obtain ⟨i, hi, hinone⟩ := hfirst
        exact ⟨i, hi, by rwa [Nat.zero_add]⟩
      rw [if_pos hst1]
      exact ⟨_, rfl⟩
    · have hst1 : (xfer_producer rb.storage (rb.produced % rb.capacity) cb 0
          (rb.capacity - rb.produced % rb.capacity)).2 = true := by
        rw [xfer_producer_ok_iff]
        intro i hi
        cases hv : cb (0 + i) with
        | none =>
            exact absurd ⟨i, hi, by rwa [Nat.zero_add] at hv⟩ hfirst
        | some y => rfl
      rw [if_neg (by rw [hst1]; exact fun hcontra => Bool.noConfusion hcontra)]
      have hj0ge : rb.capacity - rb.produced % rb.capacity ≤ j0 := by
        by_contra hlt
        exact hfirst ⟨j0, by omega, hj0none⟩
      have hst2 : (xfer_producer (xfer_producer rb.storage
          (rb.produced % rb.capacity) cb 0
          (rb.capacity - rb.produced % rb.capacity)).1 0 cb
          (rb.capacity - rb.produced % rb.capacity)
          (min n (rb.capacity - (rb.produced - rb.consumed)) -
           (rb.capacity - rb.produced % rb.capacity))).2 = false := by
        apply xfer_producer_fails
        refine ⟨j0 - (rb.capacity - rb.produced % rb.capacity), by omega, ?_⟩
        have e : rb.capacity - rb.produced % rb.capacity +
            (j0 - (rb.capacity - rb.produced % rb.capacity)) = j0 := by omega
        rw [e]
        exact hj0none
      rw [if_pos hst2]
      exact ⟨_, rfl⟩
  · rw [if_neg hsplit]
    rw [if_neg (Nat.lt_irrefl 0), if_neg (Nat.lt_irrefl 0)]
    rw [if_neg (show ¬(((rb.storage, true) : List T × Bool).2 = false) by simp)]
    have hst2 : (xfer_producer rb.storage (rb.produced % rb.capacity) cb 0
        (min n (rb.capacity - (rb.produced - rb.consumed)) - 0)).2 = false := by
      apply xfer_producer_fails
      exact ⟨j0, by omega, by rwa [Nat.zero_add]⟩
    rw [if_pos hst2]
    exact ⟨_, rfl⟩

theorem read_via_go_fail (rb : ringbuffer T) (cb : Nat → Bool) (n : Nat)
    (hcap0 : 0 < rb.capacity)
    (hfail : ∃ j, j < min n (rb.produced - rb.consumed) ∧ cb j = false) :
    read_via_go rb cb n rb.consumed = (-1, rb) := by
  obtain ⟨j0, hj0, hj0f⟩ := hfail
  have hmod : rb.consumed % rb.capacity < rb.capacity :=
    Nat.mod_lt _ hcap0
  simp only [read_via_go]
  by_cases hsplit : rb.capacity < rb.consumed % rb.capacity +
      min n (rb.produced - rb.consumed)
  · rw [if_pos hsplit]
    have hpos : 0 < rb.capacity - rb.consumed % rb.capacity := by omega
    rw [if_pos hpos]
    by_cases hfirst : ∃ i, i < rb.capacity - rb.consumed % rb.capacity ∧
        cb i = false
    · have hok1 : xfer_consumer cb 0 (rb.capacity - rb.consumed % rb.capacity) =
          false := by
        apply xfer_consumer_fails
        obtain ⟨i, hi, hif⟩ := hfirst
        exact ⟨i, hi, by rwa [Nat.zero_add]⟩
      rw [if_pos hok1]
      rfl
    · have hok1 : xfer_consumer cb 0 (rb.capacity - rb.consumed % rb.capacity) =
          true := by
        rw [xfer_consumer_ok_iff]
        intro i hi
        cases hv : cb (0 + i) with
        | false =>
            exact absurd ⟨i, hi, by rwa [Nat.zero_add] at hv⟩ hfirst
        | true => rfl
      rw [if_neg (by rw [hok1]; exact fun hcontra => Bool.noConfusion hcontra)]
      have hj0ge : rb.capacity - rb.consumed % rb.capacity ≤ j0 := by
        by_contra hlt
        exact hfirst ⟨j0, by omega, hj0f⟩
      have hok2 : xfer_consumer cb (rb.capacity - rb.consumed % rb.capacity)
          (min n (rb.produced - rb.consumed) -
           (rb.capacity - rb.consumed % rb.capacity)) = false := by
        apply xfer_consumer_fails
        refine ⟨j0 - (rb.capacity - rb.consumed % rb.capacity), by omega, ?_⟩
        have e : rb.capacity - rb.consumed % rb.capacity +
            (j0 - (rb.capacity - rb.consumed % rb.capacity)) = j0 := by omega
        rw [e]
        exact hj0f
      rw [if_pos hok2]
      rfl
  · rw [if_neg hsplit]
    rw [if_neg (Nat.lt_irrefl 0)]
    rw [if_neg (show ¬(true = false) from fun hcontra => Bool.noConfusion hcontra)]
    have hok2 : xfer_consumer cb 0
        (min n (rb.produced - rb.consumed) - 0) = false := by
      apply xfer_consumer_fails
      exact ⟨j0, by omega, by rwa [Nat.zero_add]⟩
    rw [if_pos hok2]
    rfl

/-- C5: a `write_via` (resp. `read_via`) whose caller-supplied transfer
callback returns false mid-transfer returns INTERNAL_ERROR (-1) and does
not advance `produced` (resp. `consumed`); `dropped` is also unchanged.
Each half carries only its own availability condition: the write half needs
free slots (in particular it covers an empty buffer), the read half needs
available elements (in particular it covers a full buffer); a negative
status is returned before the callback runs otherwise. -/
theorem C5_callback_failure (rb : ringbuffer Nat) (cbw : Nat → Option Nat)
    (cbr : Nat → Bool) (n : Nat)
    (hcap : 0 < rb.capacity)
    (hcc : rb.consumed ≤ rb.produced)
    (hfill : rb.produced - rb.consumed ≤ rb.capacity)
    (hn : n ≠ 0) :
    (0 < rb.capacity - (rb.produced - rb.consumed) →
       (∃ j, j < min n (rb.capacity - (rb.produced - rb.consumed)) ∧
          cbw j = none) →
       ∃ rb2, write_via rb cbw n = some (-1, rb2) ∧
         rb2.produced = rb.produced ∧ rb2.consumed = rb.consumed ∧
         rb2.dropped = rb.dropped) ∧
    (0 < rb.produced - rb.consumed →
       (∃ j, j < min n (rb.produced - rb.consumed) ∧ cbr j = false) →
       read_via rb cbr n = some (-1, rb)) := by
  constructor
  · intro hwfree hwfail
    obtain ⟨st, hgo⟩ := write_via_go_fail rb cbw n hwfail
    refine ⟨{ rb with storage := st }, ?_, rfl, rfl, rfl⟩
    rw [write_via_eq_go rb cbw n hn hcc hfill hwfree, hgo]
  · intro havail hrfail
    rw [read_via_eq_go rb cbr n hn hcc hfill havail,
        read_via_go_fail rb cbr n hcap hrfail]

/-- An empty capacity-1 buffer used to exercise the write half of C5. -/
def c5_empty : ringbuffer Nat :=
  { capacity := 1, nonblocking_write := true, nonblocking_read := true,
    produced := 0, consumed := 0, dropped := 0, storage := [0],
    writing_semaphore := true, reading_semaphore := false,
    is_writing_cancelled := false, is_reading_cancelled := false }

/-- A full capacity-1 buffer used to exercise the read half of C5. -/
def c5_full : ringbuffer Nat :=
  { capacity := 1, nonblocking_write := true, nonblocking_read := true,
    produced := 1, consumed := 0, dropped := 0, storage := [5],
    writing_semaphore := true, reading_semaphore := false,
    is_writing_cancelled := false, is_reading_cancelled := false }

/-- Witness for C5: a filler failing on its first invocation against an
empty capacity-1 buffer, and a drainer failing on its first invocation
against a full capacity-1 buffer. -/
theorem C5_callback_failure_witness :
    (∃ rb2, write_via c5_empty (fun _ => none) 1 = some (-1, rb2) ∧
       rb2.produced = c5_empty.produced ∧ rb2.consumed = c5_empty.consumed ∧
       rb2.dropped = c5_empty.dropped) ∧
    read_via c5_full (fun _ => false) 1 = some (-1, c5_full) :=
  ⟨(C5_callback_failure c5_empty (fun _ => none) (fun _ => false) 1
      (by decide) (by decide) (by decide) (by decide)).1
      (by decide) ⟨0, by decide, rfl⟩,
   (C5_callback_failure c5_full (fun _ => none) (fun _ => false) 1
      (by decide) (by decide) (by decide) (by decide)).2
      (by decide) ⟨0, by decide, rfl⟩⟩

/-! ### Binary semaphore trace counting -/

theorem run_sem_count (ops : List sem_op) :
    ∀ (r r' : Bool) (s : Nat), run_sem r ops = some (r', s) →
      s = count_waits ops := by
  induction ops with
  | nil =>
      intro r r' s h
      have h' := Option.some.inj h
      have hs : (0 : Nat) = s := congrArg Prod.snd h'
      rw [← hs]
      rfl
  | cons op rest ih =>
      intro r r' s h
      cases op with
      | post =>
          simp only [run_sem] at h
          simp only [count_waits]
          exact ih true r' s h
      | wait =>
          simp only [run_sem] at h
          cases r with
          | false => simp at h
          | true =>
              rw [if_pos rfl] at h
              cases hrec : run_sem false rest with
              | none =>
                  rw [hrec] at h
                  simp at h
              | some pr =>
                  rw [hrec] at h
                  obtain ⟨r1, s1⟩ := pr
                  simp only [Option.map_some'] at h
                  have h' := Option.some.inj h
                  have hs : s1 + 1 = s := congrArg Prod.snd h'
                  have h1 := ih false r1 s1 hrec
                  simp only [count_waits]
                  omega

theorem delivered_waits_le (ops : List sem_op) (h : delivered ops) :
    count_waits ops ≤ count_posts ops := by
  have h1 := h ops.length (le_refl _)
  rwa [List.take_length] at h1

/-- C8 counterexample: the interleaving post, post, wait, wait satisfies the
claim's delivery discipline (each post is delivered before the matching
wait starts), yet only one wait can ever return: the two posts coalesce on
the single ready flag, the second wait parks on an empty flag with no post
left to wake it (`run_sem = none`), so the number of successful waits is
1 ≠ min(posts, waits) = 2. -/
theorem C8_min_posts_waits_cex :
    delivered [sem_op.post, sem_op.post, sem_op.wait, sem_op.wait] ∧
    count_posts [sem_op.post, sem_op.post, sem_op.wait, sem_op.wait] = 2 ∧
    count_waits [sem_op.post, sem_op.post, sem_op.wait, sem_op.wait] = 2 ∧
    sem_successes false [sem_op.post, sem_op.post, sem_op.wait, sem_op.wait] = 1 ∧
    run_sem false [sem_op.post, sem_op.post, sem_op.wait, sem_op.wait] = none ∧
    (1 : Nat) ≠ min 2 2 := by decide

theorem sem_successes_le_waits (ops : List sem_op) :
    ∀ r, sem_successes r ops ≤ count_waits ops := by
  induction ops with
  | nil =>
      intro r
      exact Nat.le_refl 0
  | cons op rest ih =>
      intro r
      cases op with
      | post =>
          simp only [sem_successes, count_waits]
          exact ih true
      | wait =>
          cases r with
          | false =>
              simp only [sem_successes, count_waits]
              rw [if_neg Bool.false_ne_true]
              have h1 := ih false
              omega
          | true =>
              simp only [sem_successes, count_waits]
              rw [if_pos trivial]
              have h1 := ih false
              omega

theorem sem_successes_le_posts (ops : List sem_op) :
    ∀ r, sem_successes r ops ≤
      count_posts ops + (if r = true then 1 else 0) := by
  induction ops with
  | nil =>
      intro r
      simp [sem_successes]
  | cons op rest ih =>
      intro r
      cases op with
      | post =>
          simp only [sem_successes, count_posts]
          have h1 := ih true
          rw [if_pos rfl] at h1
          cases r with
          | false =>
              rw [if_neg Bool.false_ne_true]
              omega
          | true =>
              rw [if_pos rfl]
              omega
      | wait =>
          cases r with
          | false =>
              simp only [sem_successes, count_posts]
              rw [if_neg Bool.false_ne_true, if_neg Bool.false_ne_true]
              have h1 := ih false
              rw [if_neg Bool.false_ne_true] at h1
              omega
          | true =>
              simp only [sem_successes, count_posts]
              rw [if_pos trivial, if_pos trivial]
              have h1 := ih false
              rw [if_neg Bool.false_ne_true] at h1
              omega

/-- C8 amended: for a binary semaphore with initial ready = false, the
number of successful wait returns never exceeds min(posts, waits) on any
trace, parked waits included; it equals min(posts, waits) under the
delivery discipline whenever every wait completes (no wait parks on a flag
consumed by coalesced posts — e.g. when posts and waits strictly
alternate); and post on an already-set flag is idempotent. -/
theorem C8_semaphore_amended (ops : List sem_op) :
    sem_successes false ops ≤ min (count_posts ops) (count_waits ops) ∧
    (∀ (r' : Bool) (s : Nat), delivered ops →
       run_sem false ops = some (r', s) →
       s = min (count_posts ops) (count_waits ops)) ∧
    run_sem true [sem_op.post] = some (true, 0) := by
  refine ⟨?_, ?_, rfl⟩
  · have h1 := sem_successes_le_waits ops false
    have h2 := sem_successes_le_posts ops false
    rw [if_neg Bool.false_ne_true] at h2
    omega
  · intro r' s hdel hrun
    have h1 := run_sem_count ops false r' s hrun
    have h2 := delivered_waits_le ops hdel
    omega

/-- Witness for the amended C8: the bound holds on the coalescing trace
post, post, wait, wait (one success against min = 2), and equality with
min(posts, waits) holds on the alternating trace post, wait, post, wait. -/
theorem C8_semaphore_amended_witness :
    sem_successes false [sem_op.post, sem_op.post, sem_op.wait, sem_op.wait] ≤
      min (count_posts [sem_op.post, sem_op.post, sem_op.wait, sem_op.wait])
        (count_waits [sem_op.post, sem_op.post, sem_op.wait, sem_op.wait]) ∧
    (2 : Nat) = min
      (count_posts [sem_op.post, sem_op.wait, sem_op.post, sem_op.wait])
      (count_waits [sem_op.post, sem_op.wait, sem_op.post, sem_op.wait]) ∧
    run_sem true [sem_op.post] = some (true, 0) :=
  ⟨(C8_semaphore_amended
      [sem_op.post, sem_op.post, sem_op.wait, sem_op.wait]).1,
   (C8_semaphore_amended
      [sem_op.post, sem_op.wait, sem_op.post, sem_op.wait]).2.1
      false 2 (by decide) (by decide),
   (C8_semaphore_amended
      [sem_op.post, sem_op.wait, sem_op.post, sem_op.wait]).2.2⟩

/-- C9 counterexample: on a buffer whose read direction is configured
non-blocking, `cancel(CONSUMER)` leaves the reading-cancelled flag false
and the whole state unchanged — the code acts only when that side is
blocking (src/ringbuffer_base.hpp lines 216-227). -/
theorem C9_cancel_cex :
    (cancel (mk_ringbuffer Nat 2 true true) .CONSUMER).is_reading_cancelled
      = false ∧
    cancel (mk_ringbuffer Nat 2 true true) .CONSUMER =
      mk_ringbuffer Nat 2 true true := by decide

/-- C9 amended: `cancel(role)` sets the corresponding cancelled flag and
posts the corresponding semaphore, leaving all other state unchanged, when
that direction is configured blocking; when it is configured non-blocking
(and for role NONE) the call is a no-op. -/
theorem C9_cancel_amended (rb : ringbuffer Nat) :
    (rb.nonblocking_write = false →
       cancel rb .PRODUCER =
         { rb with is_writing_cancelled := true, writing_semaphore := true }) ∧
    (rb.nonblocking_write = true → cancel rb .PRODUCER = rb) ∧
    (rb.nonblocking_read = false →
       cancel rb .CONSUMER =
         { rb with is_reading_cancelled := true, reading_semaphore := true }) ∧
    (rb.nonblocking_read = true → cancel rb .CONSUMER = rb) ∧
    cancel rb .NONE = rb := by
  refine ⟨?_, ?_, ?_, ?_, rfl⟩ <;> intro h <;> simp [cancel, h]

/-- Witness for the amended C9 on blocking-read and non-blocking-read
buffers. -/
theorem C9_cancel_amended_witness :
    cancel (mk_ringbuffer Nat 2 true false) .CONSUMER =
      { mk_ringbuffer Nat 2 true false with
        is_reading_cancelled := true, reading_semaphore := true } ∧
    cancel (mk_ringbuffer Nat 2 true true) .CONSUMER =
      mk_ringbuffer Nat 2 true true :=
  ⟨(C9_cancel_amended (mk_ringbuffer Nat 2 true false)).2.2.1 rfl,
   (C9_cancel_amended (mk_ringbuffer Nat 2 true true)).2.2.2.1 rfl⟩

/-- C10: the in-place `operator*=` (src/complex.hpp lines 151-156) computes
the imaginary part from the already-updated real part, so at a = 1+1i,
b = 1+1i it yields (0, 1) while the out-of-place product (lines 273-280)
yields (0, 2): the two disagree, refuting the claimed equivalence and
exhibiting the aliasing bug in the code. -/
theorem C10_mul_assign_bug :
    cpx_mul_assign ⟨1, 1⟩ ⟨1, 1⟩ = ⟨0, 1⟩ ∧
    cpx_mul ⟨1, 1⟩ ⟨1, 1⟩ = ⟨0, 2⟩ ∧
    cpx_mul_assign ⟨1, 1⟩ ⟨1, 1⟩ ≠ cpx_mul ⟨1, 1⟩ ⟨1, 1⟩ := by decide

end ymn
